import Mathlib

/-!
Verification of the front-end core of the small compiler in this repository
(`src/api.h`).  The repository ships only the header `api.h`, which fixes the
data model (arena records, enums, and the inline accessors `string_buffer` and
`string_length`); the bodies of the lexer, parser, resolver, completer and
`intern_string` are declared there but their implementation file is not in the
tree, so those bodies are modelled from the specification (each such
definition says so in its doc comment).  Machine integers are modelled as
`Nat`/`Int`; arenas are Lean lists indexed by position; fatal errors are
`Option`/failure results.
-/

namespace Lang

/-! ## String pool (interning)

Data layout from `api.h`: `struct StringInfo \x7b int pos; String next; \x7d`
(offset into the character buffer `strbuf`, plus the next string in the hash
chain), and `struct StringBucketInfo \x7b String firstString; \x7d`.  A
trailing sentinel `StringInfo` record one past the last valid string holds the
end offset.  `String` ids are dense indices. -/

structure StringInfo where
  pos : Nat
  next : Option Nat
deriving Repr, DecidableEq

structure Pool where
  strbuf : List Nat
  stringInfo : List StringInfo
  strBucketInfo : List (Option Nat)
deriving Repr, DecidableEq

/-- Modelled from the spec: the bucket table is "an open hash over a small
prime number of buckets" (§3); the concrete count is not in `src/`. -/
def STRBUCKETCNT : Nat := 61

def Pool.stringCnt (p : Pool) : Nat := p.stringInfo.length - 1

/-- Modelled from the spec: `intern_string` hashes the bytes (§4.A); the hash
function itself is not in `src/`, so a simple byte fold is used.  The claims
do not depend on the choice. -/
def hashBytes (bs : List Nat) : Nat :=
  bs.foldl (fun h b => (h * 31 + b) % STRBUCKETCNT) 0

def Pool.posOf (p : Pool) (s : Nat) : Nat :=
  (p.stringInfo.getD s ⟨0, none⟩).pos

def Pool.nextOf (p : Pool) (s : Nat) : Option Nat :=
  (p.stringInfo.getD s ⟨0, none⟩).next

/-- From the source (`api.h`, `string_length`):
`stringInfo[s+1].pos - stringInfo[s].pos - 1`, an `int` subtraction. -/
def string_length (p : Pool) (s : Nat) : Int :=
  (p.posOf (s + 1) : Int) - (p.posOf s : Int) - 1

/-- From the source (`api.h`, `string_buffer`): `&strbuf[stringInfo[s].pos]`,
modelled as the byte suffix starting at that offset. -/
def string_buffer (p : Pool) (s : Nat) : List Nat :=
  p.strbuf.drop (p.posOf s)

/-- The byte content of string `s`: `string_length` many bytes at
`string_buffer`. -/
def Pool.contentOf (p : Pool) (s : Nat) : List Nat :=
  (p.strbuf.drop (p.posOf s)).take (p.posOf (s + 1) - p.posOf s - 1)

/-- Walk a bucket chain looking for a byte-wise match (spec §4.A: "walk the
bucket chain, compare byte-wise against existing entries"). -/
def chainFind (p : Pool) (bs : List Nat) : Nat → Option Nat → Option Nat
  | 0, _ => none
  | _, none => none
  | fuel + 1, some i =>
      if p.contentOf i = bs then some i else chainFind p bs fuel (p.nextOf i)

/-- The list of ids on a bucket chain, up to `fuel` steps. -/
def chainList (p : Pool) : Nat → Option Nat → List Nat
  | 0, _ => []
  | _, none => []
  | fuel + 1, some i => i :: chainList p fuel (p.nextOf i)

/-- Modelled from the spec: `intern_string` is declared in `api.h` but its
body is not in `src/`.  Per §4.A: hash the bytes, walk the bucket chain
comparing byte-wise, and either return the existing id or append the bytes
plus a NUL terminator to the byte buffer, allocate a new `StringInfo` record
whose `pos` is the new start, keep the trailing sentinel one past the last
valid string, and push the new id on the front of its bucket chain. -/
def intern_string (p : Pool) (bs : List Nat) : Nat × Pool :=
  let h := hashBytes bs
  match chainFind p bs p.stringCnt (p.strBucketInfo.getD h none) with
  | some i => (i, p)
  | none =>
      let i := p.stringCnt
      let buf' := p.strbuf ++ bs ++ [0]
      let si' := (p.stringInfo.set i ⟨p.strbuf.length, p.strBucketInfo.getD h none⟩)
          ++ [⟨buf'.length, none⟩]
      (i, ⟨buf', si', p.strBucketInfo.set h (some i)⟩)

/-- The empty pool: no bytes, just the sentinel record, empty buckets. -/
def Pool.empty : Pool :=
  ⟨[], [⟨0, none⟩], List.replicate STRBUCKETCNT none⟩

/-- Interning a list of byte sequences in order, starting from the empty
pool; every pool arising in the program is of this shape. -/
def internList (l : List (List Nat)) : Pool :=
  l.foldl (fun p bs => (intern_string p bs).2) Pool.empty

/-- String `i` of pool `p` stores exactly the bytes `bs` (followed by the NUL
terminator reserved by the layout of §4.A). -/
def storedAt (p : Pool) (i : Nat) (bs : List Nat) : Prop :=
  p.posOf (i + 1) = p.posOf i + bs.length + 1 ∧
  (p.strbuf.drop (p.posOf i)).take (bs.length + 1) = bs ++ [0]

/-- Well-formedness of the pool, established at `Pool.empty` and preserved by
`intern_string`. -/
structure PoolWF (p : Pool) : Prop where
  ne : p.stringInfo ≠ []
  buckets : p.strBucketInfo.length = STRBUCKETCNT
  sentinel : p.posOf p.stringCnt = p.strbuf.length
  bounded : ∀ i, i ≤ p.stringCnt → p.posOf i ≤ p.strbuf.length
  stored : ∀ i, i < p.stringCnt → ∃ bs, storedAt p i bs
  uniq : ∀ i j, i < p.stringCnt → j < p.stringCnt →
    p.contentOf i = p.contentOf j → i = j
  inChain : ∀ i, i < p.stringCnt →
    i ∈ chainList p p.stringCnt (p.strBucketInfo.getD (hashBytes (p.contentOf i)) none)
  headLt : ∀ h i, p.strBucketInfo.getD h none = some i → i < p.stringCnt
  nextLt : ∀ i j, i < p.stringCnt → p.nextOf i = some j → j < i

instance (p : Pool) (i : Nat) (bs : List Nat) : Decidable (storedAt p i bs) := by
  unfold storedAt; infer_instance

/-! ### Pool lemmas -/

theorem getD_append_lt {α} (l1 l2 : List α) (d : α) (i : Nat) (h : i < l1.length) :
    (l1 ++ l2).getD i d = l1.getD i d := by
  simp [List.getD_eq_getElem?_getD, List.getElem?_append, h]

theorem getD_append_right {α} (l1 l2 : List α) (d : α) (i : Nat) (h : l1.length ≤ i) :
    (l1 ++ l2).getD i d = l2.getD (i - l1.length) d := by
  simp [List.getD_eq_getElem?_getD, List.getElem?_append_right h]

theorem getD_set_ne {α} (l : List α) (d a : α) (i j : Nat) (h : i ≠ j) :
    (l.set i a).getD j d = l.getD j d := by
  simp [List.getD_eq_getElem?_getD, List.getElem?_set_ne h]

theorem getD_set_self {α} (l : List α) (d a : α) (i : Nat) (h : i < l.length) :
    (l.set i a).getD i d = a := by
  simp [List.getD_eq_getElem?_getD, List.getElem?_set_self, h]

theorem take_drop_append {α} (l1 l2 : List α) (a k : Nat) (h : a + k ≤ l1.length) :
    ((l1 ++ l2).drop a).take k = (l1.drop a).take k := by
  rw [List.drop_append_of_le_length (by omega), List.take_append_of_le_length]
  simp; omega

theorem storedAt_content {p : Pool} {i : Nat} {bs : List Nat}
    (h : storedAt p i bs) : p.contentOf i = bs := by
  obtain ⟨hpos, hsl⟩ := h
  unfold Pool.contentOf
  have hlen : p.posOf (i + 1) - p.posOf i - 1 = bs.length := by omega
  rw [hlen]
  have : (p.strbuf.drop (p.posOf i)).take bs.length
      = ((p.strbuf.drop (p.posOf i)).take (bs.length + 1)).take bs.length := by
    rw [List.take_take]; congr 1; omega
  rw [this, hsl]
  simpa using List.take_left bs [0]

theorem storedAt_length {p : Pool} {i : Nat} {bs : List Nat}
    (h : storedAt p i bs) : string_length p i = (bs.length : Int) := by
  obtain ⟨hpos, -⟩ := h
  unfold string_length
  omega

theorem chainFind_sound {p : Pool} {bs : List Nat} :
    ∀ (f : Nat) (head : Option Nat) (i : Nat), chainFind p bs f head = some i →
      i ∈ chainList p f head ∧ p.contentOf i = bs := by
  intro f
  induction f with
  | zero => intro head i h; simp [chainFind] at h
  | succ f ih =>
      intro head i h
      match head with
      | none => simp [chainFind] at h
      | some j =>
          rw [chainFind] at h
          by_cases hc : p.contentOf j = bs
          · simp [hc] at h; subst h; exact ⟨by simp [chainList], hc⟩
          · simp [hc] at h
            obtain ⟨hmem, hcn⟩ := ih _ _ h
            exact ⟨by simp [chainList, hmem], hcn⟩

theorem chainFind_mem {p : Pool} {bs : List Nat} :
    ∀ (f : Nat) (head : Option Nat) (i : Nat), i ∈ chainList p f head →
      p.contentOf i = bs → ∃ j, chainFind p bs f head = some j := by
  intro f
  induction f with
  | zero => intro head i h; simp [chainList] at h
  | succ f ih =>
      intro head i h hc
      match head with
      | none => simp [chainList] at h
      | some k =>
          rw [chainList] at h
          by_cases hk : p.contentOf k = bs
          · exact ⟨k, by rw [chainFind]; simp [hk]⟩
          · rw [chainFind]
            simp only [hk, if_false]
            rcases List.mem_cons.mp h with rfl | h2
            · exact absurd hc hk
            · exact ih _ _ h2 hc

theorem chainList_lt {p : Pool} {c : Nat}
    (hlt : ∀ i j, i < c → p.nextOf i = some j → j < c) :
    ∀ (f : Nat) (head : Option Nat), (∀ i, head = some i → i < c) →
      ∀ j, j ∈ chainList p f head → j < c := by
  intro f
  induction f with
  | zero => intro head _ j h; simp [chainList] at h
  | succ f ih =>
      intro head hhead j h
      match head with
      | none => simp [chainList] at h
      | some k =>
          rw [chainList] at h
          have hk : k < c := hhead k rfl
          rcases List.mem_cons.mp h with rfl | h2
          · exact hk
          · exact ih _ (fun i hi => hlt k i hk hi) j h2

theorem chainList_congr {p q : Pool} {c : Nat}
    (hnext : ∀ i, i < c → q.nextOf i = p.nextOf i)
    (hlt : ∀ i j, i < c → p.nextOf i = some j → j < c) :
    ∀ (f : Nat) (head : Option Nat), (∀ i, head = some i → i < c) →
      chainList q f head = chainList p f head := by
  intro f
  induction f with
  | zero => intro head _; simp [chainList]
  | succ f ih =>
      intro head hhead
      match head with
      | none => simp [chainList]
      | some k =>
          have hk : k < c := hhead k rfl
          rw [chainList, chainList, hnext k hk]
          congr 1
          exact ih _ (fun i hi => hlt k i hk hi)

theorem chainList_mono {p : Pool} :
    ∀ (f : Nat) (head : Option Nat) (j : Nat),
      j ∈ chainList p f head → j ∈ chainList p (f + 1) head := by
  intro f
  induction f with
  | zero => intro head j h; simp [chainList] at h
  | succ f ih =>
      intro head j h
      match head with
      | none => simp [chainList] at h
      | some k =>
          rw [chainList] at h
          rcases List.mem_cons.mp h with rfl | h2
          · simp [chainList]
          · rw [chainList]
            exact List.mem_cons.mpr (Or.inr (ih _ j h2))

theorem hashBytes_lt (bs : List Nat) : hashBytes bs < STRBUCKETCNT := by
  unfold hashBytes
  have : ∀ (l : List Nat) (acc : Nat), acc < STRBUCKETCNT →
      l.foldl (fun h b => (h * 31 + b) % STRBUCKETCNT) acc < STRBUCKETCNT := by
    intro l
    induction l with
    | nil => intro acc h; simpa using h
    | cons b t ih =>
        intro acc h
        simp only [List.foldl_cons]
        exact ih _ (Nat.mod_lt _ (by norm_num [STRBUCKETCNT]))
  exact this bs 0 (by norm_num [STRBUCKETCNT])

theorem poolWF_empty : PoolWF Pool.empty := by
  constructor <;> simp [Pool.empty, Pool.stringCnt, Pool.posOf, Pool.nextOf, List.getD] <;>
    intros <;> simp_all

theorem stored_intern_self {p : Pool} {i : Nat} {bs : List Nat} (hWF : PoolWF p)
    (hst : storedAt p i bs) (hi : i < p.stringCnt) :
    intern_string p bs = (i, p) := by
  have hci : p.contentOf i = bs := storedAt_content hst
  have hmem := hWF.inChain i hi
  rw [hci] at hmem
  obtain ⟨j, hj⟩ := chainFind_mem _ _ i hmem hci
  obtain ⟨hjmem, hjc⟩ := chainFind_sound _ _ _ hj
  have hjlt : j < p.stringCnt :=
    chainList_lt (fun a b ha hb => lt_trans (hWF.nextLt a b ha hb) ha) _ _
      (fun k hk => hWF.headLt _ k hk) j hjmem
  have : j = i := hWF.uniq j i hjlt hi (by rw [hjc, hci])
  subst this
  simp only [intern_string]
  rw [hj]

theorem intern_spec (p : Pool) (bs : List Nat) (hWF : PoolWF p) :
    PoolWF (intern_string p bs).2 ∧
    storedAt (intern_string p bs).2 (intern_string p bs).1 bs ∧
    (intern_string p bs).1 < (intern_string p bs).2.stringCnt ∧
    p.stringCnt ≤ (intern_string p bs).2.stringCnt ∧
    (∀ j cs, j < p.stringCnt → storedAt p j cs → storedAt (intern_string p bs).2 j cs) ∧
    ((intern_string p bs).2 = p ∨
      ((intern_string p bs).2.stringCnt = p.stringCnt + 1 ∧
        (intern_string p bs).1 = p.stringCnt)) := by
  have hlen : p.stringInfo.length = p.stringCnt + 1 := by
    unfold Pool.stringCnt
    have hne : p.stringInfo.length ≠ 0 := by simpa using hWF.ne
    omega
  cases hfind : chainFind p bs p.stringCnt
      (p.strBucketInfo.getD (hashBytes bs) none) with
  | some i =>
      have hres : intern_string p bs = (i, p) := by
        simp only [intern_string]
        rw [hfind]
      obtain ⟨himem, hic⟩ := chainFind_sound _ _ _ hfind
      have hilt : i < p.stringCnt :=
        chainList_lt (fun a b ha hb => lt_trans (hWF.nextLt a b ha hb) ha) _ _
          (fun k hk => hWF.headLt _ k hk) i himem
      obtain ⟨cs, hcs⟩ := hWF.stored i hilt
      have : cs = bs := by rw [← storedAt_content hcs, hic]
      subst this
      rw [hres]
      exact ⟨hWF, hcs, hilt, le_refl _, fun j cs2 _ h => h, Or.inl rfl⟩
  | none =>
      have hres0 : intern_string p bs =
          (p.stringCnt,
            ⟨p.strbuf ++ bs ++ [0],
             (p.stringInfo.set p.stringCnt
                 ⟨p.strbuf.length, p.strBucketInfo.getD (hashBytes bs) none⟩)
               ++ [⟨(p.strbuf ++ bs ++ [0]).length, none⟩],
             p.strBucketInfo.set (hashBytes bs) (some p.stringCnt)⟩) := by
        simp only [intern_string]
        rw [hfind]
      set n := p.stringCnt with hn
      set h := hashBytes bs with hh
      set oldHead := p.strBucketInfo.getD h none with hoh
      set q : Pool :=
        (⟨p.strbuf ++ bs ++ [0],
         (p.stringInfo.set n ⟨p.strbuf.length, oldHead⟩)
             ++ [⟨(p.strbuf ++ bs ++ [0]).length, none⟩],
         p.strBucketInfo.set h (some n)⟩ : Pool) with hqdef
      have hres : intern_string p bs = (n, q) := hres0
      have hslen : (p.stringInfo.set n ⟨p.strbuf.length, oldHead⟩).length = n + 1 := by
        simp [hlen]
      have hqcnt : q.stringCnt = n + 1 := by
        show q.stringInfo.length - 1 = n + 1
        rw [hqdef]
        simp [hlen]
      have hqbuf : q.strbuf = p.strbuf ++ (bs ++ [0]) := by rw [hqdef]; simp
      have hqbuflen : q.strbuf.length = p.strbuf.length + (bs.length + 1) := by
        rw [hqbuf]; simp
      have hposlt : ∀ s, s < n → q.posOf s = p.posOf s := by
        intro s hs
        show ((q.stringInfo).getD s _).pos = _
        rw [hqdef]
        simp only
        rw [getD_append_lt _ _ _ _ (by rw [hslen]; omega),
          getD_set_ne _ _ _ _ _ (by omega)]
        rfl
      have hposn : q.posOf n = p.strbuf.length := by
        show ((q.stringInfo).getD n _).pos = _
        rw [hqdef]
        simp only
        rw [getD_append_lt _ _ _ _ (by rw [hslen]; omega),
          getD_set_self _ _ _ _ (by omega)]
      have hposle : ∀ s, s ≤ n → q.posOf s = p.posOf s := by
        intro s hs
        rcases Nat.lt_or_ge s n with hlt | hge
        · exact hposlt s hlt
        · have : s = n := by omega
          subst this
          rw [hposn, hWF.sentinel]
      have hposn1 : q.posOf (n + 1) = p.strbuf.length + (bs.length + 1) := by
        show ((q.stringInfo).getD (n + 1) _).pos = _
        rw [hqdef]
        simp only
        rw [getD_append_right _ _ _ _ (by rw [hslen])]
        rw [hslen]
        simp
      have hnextlt : ∀ s, s < n → q.nextOf s = p.nextOf s := by
        intro s hs
        show ((q.stringInfo).getD s _).next = _
        rw [hqdef]
        simp only
        rw [getD_append_lt _ _ _ _ (by rw [hslen]; omega),
          getD_set_ne _ _ _ _ _ (by omega)]
        rfl
      have hnextn : q.nextOf n = oldHead := by
        show ((q.stringInfo).getD n _).next = _
        rw [hqdef]
        simp only
        rw [getD_append_lt _ _ _ _ (by rw [hslen]; omega),
          getD_set_self _ _ _ _ (by omega)]
      have hslice : ∀ a k, a + k ≤ p.strbuf.length →
          (q.strbuf.drop a).take k = (p.strbuf.drop a).take k := by
        intro a k hk
        rw [hqbuf]
        exact take_drop_append _ _ _ _ hk
      have hstored_pres : ∀ j cs, j < n → storedAt p j cs → storedAt q j cs := by
        intro j cs hj hst
        obtain ⟨hp1, hp2⟩ := hst
        refine ⟨?_, ?_⟩
        · rw [hposle j (by omega), hposle (j + 1) (by omega)]; exact hp1
        · rw [hposle j (by omega)]
          rw [hslice _ _ ?bound]
          · exact hp2
          case bound =>
            have hb : p.posOf (j + 1) ≤ p.strbuf.length := hWF.bounded (j + 1) (by omega)
            omega
      have hstored_new : storedAt q n bs := by
        refine ⟨?_, ?_⟩
        · rw [hposn, hposn1]; omega
        · rw [hposn, hqbuf, List.drop_left]
          have : (bs ++ [0]).length = bs.length + 1 := by simp
          rw [← this, List.take_length]
      have hcontent_pres : ∀ j, j < n → q.contentOf j = p.contentOf j := by
        intro j hj
        obtain ⟨cs, hcs⟩ := hWF.stored j hj
        rw [storedAt_content (hstored_pres j cs hj hcs), storedAt_content hcs]
      have hfresh : ∀ i, i < n → p.contentOf i ≠ bs := by
        intro i hi hci
        have hmem := hWF.inChain i hi
        rw [hci] at hmem
        obtain ⟨j, hj⟩ := chainFind_mem _ _ i hmem hci
        rw [← hh, ← hoh, ← hn] at hj
        rw [hfind] at hj
        exact Option.noConfusion hj
      have hcontent_new : q.contentOf n = bs := storedAt_content hstored_new
      have hqcontent : ∀ j, j < n + 1 → q.contentOf j = if j = n then bs else p.contentOf j := by
        intro j hj
        by_cases hje : j = n
        · subst hje; simp [hcontent_new]
        · simp [hje, hcontent_pres j (by omega)]
      have hbucket_eq : q.strBucketInfo.getD h none = some n := by
        rw [hqdef]
        simp only
        exact getD_set_self _ _ _ _ (by rw [hWF.buckets]; exact hashBytes_lt bs)
      have hbucket_ne : ∀ h0, h0 ≠ h → q.strBucketInfo.getD h0 none
          = p.strBucketInfo.getD h0 none := by
        intro h0 hne
        rw [hqdef]
        simp only
        exact getD_set_ne _ _ _ _ _ (fun he => hne he.symm)
      have hchain_congr : ∀ f head, (∀ i, head = some i → i < n) →
          chainList q f head = chainList p f head :=
        chainList_congr hnextlt (fun i j hi hj => lt_trans (hWF.nextLt i j hi hj) hi)
      have hWFq : PoolWF q := by
        refine ⟨?_, ?_, ?_, ?_, ?_, ?_, ?_, ?_, ?_⟩
        · rw [hqdef]; simp
        · rw [hqdef]; simpa using hWF.buckets
        · rw [hqcnt, hposn1, hqbuflen]
        · intro i hi
          rw [hqcnt] at hi
          rw [hqbuflen]
          rcases Nat.lt_or_ge i (n + 1) with hlt | hge
          · have := hposle i (by omega)
            have hb := hWF.bounded i (by omega)
            omega
          · have : i = n + 1 := by omega
            subst this
            rw [hposn1]
        · intro i hi
          rw [hqcnt] at hi
          rcases Nat.lt_or_ge i n with hlt | hge
          · obtain ⟨cs, hcs⟩ := hWF.stored i hlt
            exact ⟨cs, hstored_pres i cs hlt hcs⟩
          · have : i = n := by omega
            subst this
            exact ⟨bs, hstored_new⟩
        · intro i j hi hj hc
          rw [hqcnt] at hi hj
          rw [hqcontent i hi, hqcontent j hj] at hc
          by_cases hie : i = n <;> by_cases hje : j = n
          · omega
          · simp [hie, hje] at hc
            exact absurd hc.symm (hfresh j (by omega))
          · simp [hie, hje] at hc
            exact absurd hc (hfresh i (by omega))
          · simp [hie, hje] at hc
            exact hWF.uniq i j (by omega) (by omega) hc
        · intro i hi
          rw [hqcnt] at hi
          rw [hqcnt]
          by_cases hie : i = n
          · subst hie
            rw [hcontent_new, ← hh, hbucket_eq]
            rw [chainList]
            exact List.mem_cons_self _ _
          · have hilt : i < n := by omega
            rw [hcontent_pres i hilt]
            by_cases hhe : hashBytes (p.contentOf i) = h
            · rw [hhe, hbucket_eq, chainList, hnextn]
              refine List.mem_cons.mpr (Or.inr ?_)
              rw [hchain_congr n oldHead (fun k hk => hWF.headLt h k (by rw [← hoh, hk]))]
              have := hWF.inChain i hilt
              rw [hhe, ← hoh] at this
              exact this
            · rw [hbucket_ne _ hhe]
              rw [hchain_congr (n + 1) _ (fun k hk => hWF.headLt _ k hk)]
              exact chainList_mono n _ i (hWF.inChain i hilt)
        · intro h0 i heq
          rw [hqcnt]
          by_cases hhe : h0 = h
          · subst hhe
            rw [hbucket_eq] at heq
            injection heq with heq2
            omega
          · rw [hbucket_ne _ hhe] at heq
            have := hWF.headLt h0 i heq
            omega
        · intro i j hi hj
          rw [hqcnt] at hi
          rcases Nat.lt_or_ge i n with hlt | hge
          · rw [hnextlt i hlt] at hj
            exact hWF.nextLt i j hlt hj
          · have : i = n := by omega
            subst this
            rw [hnextn] at hj
            exact hWF.headLt h j (by rw [← hoh, hj])
      rw [hres]
      refine ⟨hWFq, hstored_new, ?_, ?_, ?_, Or.inr ⟨hqcnt, rfl⟩⟩
      · rw [hqcnt]; omega
      · rw [hqcnt]; omega
      · intro j cs hj hst
        exact hstored_pres j cs hj hst

theorem internList_aux (l : List (List Nat)) :
    ∀ p : Pool, PoolWF p →
      PoolWF (l.foldl (fun p bs => (intern_string p bs).2) p) := by
  induction l with
  | nil => intro p h; exact h
  | cons bs t ih =>
      intro p h
      simp only [List.foldl_cons]
      exact ih _ (intern_spec p bs h).1

theorem internList_WF (l : List (List Nat)) : PoolWF (internList l) :=
  internList_aux l Pool.empty poolWF_empty

/-! ## Claim C6 and C10 theorems -/

/-- C6: string interning has set semantics.  Interning the same byte sequence
twice returns the same `String` id (and leaves the pool untouched the second
time); distinct byte sequences get distinct ids; no two distinct `String`
ids of the resulting pool have identical byte content; and for every
interned id, `string_length` returns the length of the byte sequence
originally passed to `intern_string`. -/
theorem C6_string_interning (p : Pool) (bs cs : List Nat) (hWF : PoolWF p) :
    intern_string (intern_string p bs).2 bs
        = ((intern_string p bs).1, (intern_string p bs).2) ∧
    (bs ≠ cs →
      (intern_string (intern_string p bs).2 cs).1 ≠ (intern_string p bs).1) ∧
    (∀ a b, a < (intern_string (intern_string p bs).2 cs).2.stringCnt →
      b < (intern_string (intern_string p bs).2 cs).2.stringCnt →
      (intern_string (intern_string p bs).2 cs).2.contentOf a
          = (intern_string (intern_string p bs).2 cs).2.contentOf b → a = b) ∧
    string_length (intern_string (intern_string p bs).2 cs).2
        (intern_string p bs).1 = (bs.length : Int) ∧
    string_length (intern_string (intern_string p bs).2 cs).2
        (intern_string (intern_string p bs).2 cs).1 = (cs.length : Int) := by
  obtain ⟨hWF1, hst1, hi1, -, -, -⟩ := intern_spec p bs hWF
  obtain ⟨hWF2, hst2, hj2, -, hpres2, -⟩ := intern_spec (intern_string p bs).2 cs hWF1
  have hst1' : storedAt (intern_string (intern_string p bs).2 cs).2
      (intern_string p bs).1 bs := hpres2 _ bs hi1 hst1
  refine ⟨stored_intern_self hWF1 hst1 hi1, ?_, hWF2.uniq,
    storedAt_length hst1', storedAt_length hst2⟩
  intro hne heq
  apply hne
  have h1 := storedAt_content hst1'
  have h2 := storedAt_content hst2
  rw [heq] at h2
  rw [← h1]
  exact h2

theorem C6_string_interning_witness :
    intern_string (intern_string Pool.empty [104, 105]).2 [104, 105]
        = ((intern_string Pool.empty [104, 105]).1,
           (intern_string Pool.empty [104, 105]).2) ∧
    (intern_string (intern_string Pool.empty [104, 105]).2 [104]).1
        ≠ (intern_string Pool.empty [104, 105]).1 ∧
    string_length (intern_string (intern_string Pool.empty [104, 105]).2 [104]).2
        (intern_string Pool.empty [104, 105]).1 = 2 ∧
    string_length (intern_string (intern_string Pool.empty [104, 105]).2 [104]).2
        (intern_string (intern_string Pool.empty [104, 105]).2 [104]).1 = 1 := by
  obtain ⟨h1, h2, h3, h4, h5⟩ :=
    C6_string_interning Pool.empty [104, 105] [104] poolWF_empty
  exact ⟨h1, h2 (by decide), by simpa using h4, by simpa using h5⟩

/-- C10: for every valid `String` id `s` of a pool built by interning, the
record `stringInfo[s+1]` exists (the trailing sentinel is kept one past the
last valid string), `string_length` is well defined and non-negative, and
`string_buffer s` points at `string_length s` bytes followed by a NUL byte
that all lie inside the string byte buffer. -/
theorem C10_string_sentinel (l : List (List Nat)) (s : Nat)
    (hs : s < (internList l).stringCnt) :
    ((internList l).stringInfo[s + 1]?).isSome = true ∧
    0 ≤ string_length (internList l) s ∧
    (string_buffer (internList l) s).take ((string_length (internList l) s).toNat + 1)
        = (internList l).contentOf s ++ [0] ∧
    (internList l).posOf s + (string_length (internList l) s).toNat + 1
        ≤ (internList l).strbuf.length := by
  have hWF := internList_WF l
  obtain ⟨bs, hst⟩ := hWF.stored s hs
  have hlen : string_length (internList l) s = (bs.length : Int) := storedAt_length hst
  have hinfo : (internList l).stringInfo.length = (internList l).stringCnt + 1 := by
    unfold Pool.stringCnt
    have hne : (internList l).stringInfo.length ≠ 0 := by simpa using hWF.ne
    omega
  refine ⟨?_, ?_, ?_, ?_⟩
  · rw [List.getElem?_eq_getElem (by omega)]
    rfl
  · rw [hlen]
    exact Int.natCast_nonneg _
  · rw [hlen]
    simp only [Int.toNat_natCast]
    rw [storedAt_content hst]
    exact hst.2
  · rw [hlen]
    simp only [Int.toNat_natCast]
    have hb := hWF.bounded (s + 1) (by omega)
    have := hst.1
    omega

theorem C10_string_sentinel_witness :
    0 < (internList [[104, 105]]).stringCnt ∧
    (((internList [[104, 105]]).stringInfo[0 + 1]?).isSome = true ∧
      0 ≤ string_length (internList [[104, 105]]) 0 ∧
      (string_buffer (internList [[104, 105]]) 0).take
          ((string_length (internList [[104, 105]]) 0).toNat + 1)
          = (internList [[104, 105]]).contentOf 0 ++ [0] ∧
      (internList [[104, 105]]).posOf 0
          + (string_length (internList [[104, 105]]) 0).toNat + 1
          ≤ (internList [[104, 105]]).strbuf.length) :=
  ⟨by decide, C10_string_sentinel [[104, 105]] 0 (by decide)⟩

/-! ## IR data model

Enums and arena records embedded from `api.h`.  C unions tagged by a `kind`
field become Lean inductive payloads; the `kind` accessors are derived.
Arena ids (`Scope`, `Symbol`, `Type`, ... — all `int` typedefs in the source)
are `Nat` list indices; the C convention of `-1`/unset for "no value" is
`Option Nat`. -/

inductive TokenKind
  | TOKTYPE_WORD | TOKTYPE_INTEGER | TOKTYPE_LEFTPAREN | TOKTYPE_RIGHTPAREN
  | TOKTYPE_LEFTBRACE | TOKTYPE_RIGHTBRACE | TOKTYPE_LEFTBRACKET | TOKTYPE_RIGHTBRACKET
  | TOKTYPE_DOT | TOKTYPE_MINUS | TOKTYPE_PLUS | TOKTYPE_ASTERISK | TOKTYPE_SLASH
  | TOKTYPE_DOUBLEMINUS | TOKTYPE_DOUBLEPLUS | TOKTYPE_COMMA | TOKTYPE_SEMICOLON
  | TOKTYPE_COLON | TOKTYPE_AMPERSAND | TOKTYPE_PIPE | TOKTYPE_CARET | TOKTYPE_TILDE
  | TOKTYPE_BANG | TOKTYPE_ASSIGNEQUALS | TOKTYPE_DOUBLEEQUALS
deriving Repr, DecidableEq

open TokenKind

/-- enum ConstStrKind of `api.h`: indices of the constant strings interned at
startup, in declaration order. -/
def CONSTSTR_IF : Nat := 0
def CONSTSTR_WHILE : Nat := 1
def CONSTSTR_FOR : Nat := 2
def CONSTSTR_RETURN : Nat := 3
def CONSTSTR_PROC : Nat := 4
def CONSTSTR_DATA : Nat := 5
def CONSTSTR_ENTITY : Nat := 6
def CONSTSTR_ARRAY : Nat := 7

inductive UnopKind
  | UNOP_INVERTBITS | UNOP_NOT | UNOP_ADDRESSOF | UNOP_DEREF | UNOP_NEGATIVE
  | UNOP_POSITIVE | UNOP_PREDECREMENT | UNOP_PREINCREMENT | UNOP_POSTDECREMENT
  | UNOP_POSTINCREMENT
deriving Repr, DecidableEq

inductive BinopKind
  | BINOP_ASSIGN | BINOP_EQUALS | BINOP_MINUS | BINOP_PLUS | BINOP_MUL | BINOP_DIV
  | BINOP_BITAND | BINOP_BITOR | BINOP_BITXOR
deriving Repr, DecidableEq

inductive ScopeKind
  | SCOPE_GLOBAL | SCOPE_PROC
deriving Repr, DecidableEq

inductive SymbolKind
  | SYMBOL_TYPE | SYMBOL_DATA | SYMBOL_ARRAY | SYMBOL_PROC | SYMBOL_PARAM
deriving Repr, DecidableEq

inductive TypeKind
  | TYPE_BASE | TYPE_ENTITY | TYPE_ARRAY | TYPE_PROC | TYPE_REFERENCE
deriving Repr, DecidableEq

open UnopKind BinopKind ScopeKind SymbolKind TypeKind

/-- The kind-dependent token payload of `struct TokenInfo` (api.h): the union
of `WordTokenInfo` (interned `String`), `IntegerTokenInfo` (`long long`) and
`StringTokenInfo`; punctuators carry nothing. -/
inductive TokenPayload
  | tWord (string : Nat)
  | tInteger (value : Int)
  | tString (value : Nat)
  | tNone
deriving Repr, DecidableEq

/-- struct TokenInfo (api.h): file, offset, kind, payload union. -/
structure TokenInfo where
  file : Nat
  offset : Nat
  kind : TokenKind
  payload : TokenPayload
deriving Repr, DecidableEq

/-- The payload union of `struct SymbolInfo` (api.h). -/
inductive SymbolPayload
  | tType (t : Nat)
  | tData (d : Nat)
  | tArray (a : Nat)
  | tProc (p : Nat)
  | tParam (p : Nat)
deriving Repr, DecidableEq

/-- struct SymbolInfo (api.h): name, scope, kind tag plus union. -/
structure SymbolInfo where
  name : Nat
  scope : Nat
  payload : SymbolPayload
deriving Repr, DecidableEq

def SymbolInfo.kind (s : SymbolInfo) : SymbolKind :=
  match s.payload with
  | .tType _ => SYMBOL_TYPE
  | .tData _ => SYMBOL_DATA
  | .tArray _ => SYMBOL_ARRAY
  | .tProc _ => SYMBOL_PROC
  | .tParam _ => SYMBOL_PARAM

/-- struct SymrefInfo (api.h): name, scope of the reference, originating
token, and the `sym` field that is only valid after symbol resolution. -/
structure SymrefInfo where
  name : Nat
  refScope : Nat
  tok : Nat
  sym : Option Nat
deriving Repr, DecidableEq

/-- The payload union of `struct TypeInfo` (api.h): `BasetypeInfo`,
`EntitytypeInfo`, `ArraytypeInfo`, `ProctypeInfo`, `ReftypeInfo`. -/
inductive TypePayload
  | tBase (name : Nat) (size : Nat)
  | tEntity (name : Nat) (tp : Nat)
  | tArray (idxtp : Nat) (valuetp : Nat)
  | tProc (rettp : Nat) (nargs : Nat) (firstParamtype : Nat)
  | tRef (ref : Nat) (resolvedTp : Option Nat)
deriving Repr, DecidableEq

/-- struct TypeInfo (api.h): kind tag plus union, and the `isComplete` flag
set by the type completer. -/
structure TypeInfo where
  payload : TypePayload
  isComplete : Bool
deriving Repr, DecidableEq

def TypeInfo.kind (t : TypeInfo) : TypeKind :=
  match t.payload with
  | .tBase _ _ => TYPE_BASE
  | .tEntity _ _ => TYPE_ENTITY
  | .tArray _ _ => TYPE_ARRAY
  | .tProc _ _ _ => TYPE_PROC
  | .tRef _ _ => TYPE_REFERENCE

/-- struct ParamtypeInfo (api.h): helper for ProctypeInfo. -/
structure ParamtypeInfo where
  proctp : Nat
  argtp : Nat
  rank : Nat
deriving Repr, DecidableEq

/-- struct ScopeInfo (api.h): parent scope (none for global), the contiguous
symbol range `firstSymbol`/`numSymbols`, kind, and the proc payload for
SCOPE_PROC scopes. -/
structure ScopeInfo where
  parentScope : Option Nat
  firstSymbol : Nat
  numSymbols : Nat
  kind : ScopeKind
  proc : Option Nat
deriving Repr, DecidableEq

/-- struct DataInfo (api.h). -/
structure DataInfo where
  scope : Nat
  tp : Nat
  sym : Nat
deriving Repr, DecidableEq

/-- struct ArrayInfo (api.h). -/
structure ArrayInfo where
  scope : Nat
  tp : Nat
  sym : Nat
deriving Repr, DecidableEq

/-- struct ProcInfo (api.h).  Statement bodies are not modelled (no claim
refers to the statement arena), so `body` is kept as a bare index. -/
structure ProcInfo where
  tp : Nat
  sym : Nat
  scope : Nat
  nparams : Nat
  firstParam : Nat
  body : Nat
deriving Repr, DecidableEq

/-- struct ParamInfo (api.h). -/
structure ParamInfo where
  proc : Nat
  sym : Nat
  tp : Nat
  rank : Nat
deriving Repr, DecidableEq

/-! ## Symbol resolver (claim C1)

The resolver pass is not under `src/`; it is modelled from spec §4.E: walk
from `refScope` up the parent chain; at each scope linearly scan its
contiguous symbol range for a name match; on hit set `Symref.sym` and stop;
if no match anywhere, fatal. -/

/-- Linear scan of a scope's contiguous symbol range for the first name
match, returning the symbol id. -/
def scopeLookup (symbols : List SymbolInfo) (sc : ScopeInfo) (name : Nat) : Option Nat :=
  (List.range sc.numSymbols).findSome? fun k =>
    match symbols[sc.firstSymbol + k]? with
    | some s => if s.name = name then some (sc.firstSymbol + k) else none
    | none => none

/-- Modelled from the spec (§4.E): walk up the parent chain resolving `name`,
with `fuel` bounding the walk (the pass passes the scope count; parent ids
decrease, so that always suffices). -/
def resolveRef (scopes : List ScopeInfo) (symbols : List SymbolInfo) (name : Nat) :
    Nat → Nat → Option Nat
  | 0, _ => none
  | fuel + 1, scId =>
      match scopes[scId]? with
      | none => none
      | some sc =>
          match scopeLookup symbols sc name with
          | some i => some i
          | none =>
              match sc.parentScope with
              | none => none
              | some ps => resolveRef scopes symbols name fuel ps

/-- Sequence a fallible map over a list, failing if any element fails (the
fail-fast fatal-error discipline of §7). -/
def optionMapList {α β : Type} (f : α → Option β) : List α → Option (List β)
  | [] => some []
  | x :: t =>
      match f x, optionMapList f t with
      | some y, some out => some (y :: out)
      | _, _ => none

/-- Modelled from the spec (§4.E): the resolution pass sets `Symref.sym` for
every symref, and is fatal (`none`) if any symref is unresolvable. -/
def resolve_symrefs (scopes : List ScopeInfo) (symbols : List SymbolInfo)
    (symrefs : List SymrefInfo) : Option (List SymrefInfo) :=
  optionMapList
    (fun r => (resolveRef scopes symbols r.name scopes.length r.refScope).map
      fun s => { r with sym := some s })
    symrefs

/-- The parent chain from scope `s` (inclusive), `fuel`-bounded like
`resolveRef`. -/
def scopeChain (scopes : List ScopeInfo) : Nat → Nat → List Nat
  | 0, _ => []
  | fuel + 1, s =>
      match scopes[s]? with
      | none => []
      | some sc =>
          s :: (match sc.parentScope with
                | none => []
                | some ps => scopeChain scopes fuel ps)

/-- Does scope record `sc` declare `name` in its symbol range? -/
def scopeDeclares (symbols : List SymbolInfo) (sc : ScopeInfo) (name : Nat) : Bool :=
  (List.range sc.numSymbols).any fun k =>
    match symbols[sc.firstSymbol + k]? with
    | some s => s.name = name
    | none => false

/-- `scopeDeclares` lifted to a scope id. -/
def scopeDeclaresAt (scopes : List ScopeInfo) (symbols : List SymbolInfo)
    (s : Nat) (name : Nat) : Bool :=
  match scopes[s]? with
  | some sc => scopeDeclares symbols sc name
  | none => false

/-- Arena invariant: every scope's parent has a smaller id (scopes are
created child-after-parent in the append-only arena). -/
def parentDecB (scopes : List ScopeInfo) : Bool :=
  (List.range scopes.length).all fun s =>
    match scopes[s]? with
    | some sc =>
        match sc.parentScope with
        | some ps => decide (ps < s)
        | none => true
    | none => true

/-- Arena invariant (claim C7's contiguity, the half used by the resolver):
each slot of a scope's declared range holds a symbol owned by that scope. -/
def rangeScopedB (scopes : List ScopeInfo) (symbols : List SymbolInfo) : Bool :=
  (List.range scopes.length).all fun s =>
    match scopes[s]? with
    | some sc =>
        (List.range sc.numSymbols).all fun k =>
          match symbols[sc.firstSymbol + k]? with
          | some sym => decide (sym.scope = s)
          | none => false
    | none => true

/-! ### Resolver lemmas -/

theorem findSome?_mem {α β : Type} {f : α → Option β} {l : List α} {b : β}
    (h : l.findSome? f = some b) : ∃ a ∈ l, f a = some b := by
  rw [List.findSome?_eq_some_iff] at h
  obtain ⟨l1, a, l2, rfl, hfa, -⟩ := h
  exact ⟨a, by simp, hfa⟩

theorem scopeLookup_sound {symbols : List SymbolInfo} {sc : ScopeInfo} {name : Nat}
    {i : Nat} (h : scopeLookup symbols sc name = some i) :
    ∃ k : Nat, k < sc.numSymbols ∧ i = sc.firstSymbol + k ∧
      ∃ sym : SymbolInfo, symbols[i]? = some sym ∧ sym.name = name := by
  obtain ⟨k, hk, hfk⟩ := findSome?_mem h
  rw [List.mem_range] at hk
  refine ⟨k, hk, ?_⟩
  cases hsym : symbols[sc.firstSymbol + k]? with
  | none => rw [hsym] at hfk; exact absurd hfk (by simp)
  | some s =>
      rw [hsym] at hfk
      by_cases hn : s.name = name
      · simp only [hn, if_true] at hfk
        injection hfk with hfk
        subst hfk
        exact ⟨rfl, s, hsym, hn⟩
      · simp [hn] at hfk

theorem scopeLookup_none_decl {symbols : List SymbolInfo} {sc : ScopeInfo} {name : Nat}
    (h : scopeLookup symbols sc name = none) :
    scopeDeclares symbols sc name = false := by
  unfold scopeLookup at h
  rw [List.findSome?_eq_none_iff] at h
  unfold scopeDeclares
  rw [List.any_eq_false]
  intro k hk
  have hn := h k hk
  cases hsym : symbols[sc.firstSymbol + k]? with
  | none => simp [hsym]
  | some s =>
      rw [hsym] at hn
      by_cases hns : s.name = name
      · simp [hns] at hn
      · simp [hsym, hns]

theorem scopeLookup_some_decl {symbols : List SymbolInfo} {sc : ScopeInfo} {name : Nat}
    {i : Nat} (h : scopeLookup symbols sc name = some i) :
    scopeDeclares symbols sc name = true := by
  obtain ⟨k, hk, hik, sym, hsym, hn⟩ := scopeLookup_sound h
  unfold scopeDeclares
  rw [List.any_eq_true]
  refine ⟨k, List.mem_range.mpr hk, ?_⟩
  rw [← hik, hsym]
  simp [hn]

theorem rangeScopedB_spec {scopes : List ScopeInfo} {symbols : List SymbolInfo}
    (h : rangeScopedB scopes symbols = true) :
    ∀ (s : Nat) (sc : ScopeInfo) (k : Nat), scopes[s]? = some sc → k < sc.numSymbols →
      ∃ sym : SymbolInfo, symbols[sc.firstSymbol + k]? = some sym ∧ sym.scope = s := by
  intro s sc k hs hk
  unfold rangeScopedB at h
  rw [List.all_eq_true] at h
  have hslen : s < scopes.length := by
    by_contra hge
    rw [List.getElem?_eq_none (by omega)] at hs
    exact Option.noConfusion hs
  have h1 := h s (List.mem_range.mpr hslen)
  rw [hs] at h1
  rw [List.all_eq_true] at h1
  have h2 := h1 k (List.mem_range.mpr hk)
  cases hsym : symbols[sc.firstSymbol + k]? with
  | none => rw [hsym] at h2; exact absurd h2 (by simp)
  | some sym =>
      rw [hsym] at h2
      exact ⟨sym, rfl, by simpa using h2⟩

theorem resolveRef_some_spec {scopes : List ScopeInfo} {symbols : List SymbolInfo}
    {name : Nat} (hrange : rangeScopedB scopes symbols = true) :
    ∀ (fuel scId i : Nat), resolveRef scopes symbols name fuel scId = some i →
      ∃ sym : SymbolInfo, symbols[i]? = some sym ∧ sym.name = name ∧
        ∃ k : Nat, (scopeChain scopes fuel scId)[k]? = some sym.scope ∧
          (∀ j : Nat, j < k → ∀ t : Nat, (scopeChain scopes fuel scId)[j]? = some t →
            scopeDeclaresAt scopes symbols t name = false) := by
  intro fuel
  induction fuel with
  | zero => intro scId i h; exact absurd h (by simp [resolveRef])
  | succ fuel ih =>
      intro scId i h
      rw [resolveRef] at h
      cases hsc : scopes[scId]? with
      | none =>
          simp only [hsc] at h
          exact Option.noConfusion h
      | some sc =>
          simp only [hsc] at h
          cases hlk : scopeLookup symbols sc name with
          | some i0 =>
              simp only [hlk] at h
              injection h with h
              subst h
              obtain ⟨k, hk, hik, sym, hsym, hn⟩ := scopeLookup_sound hlk
              obtain ⟨sym2, hsym2, hscope⟩ := rangeScopedB_spec hrange scId sc k hsc hk
              rw [← hik, hsym] at hsym2
              injection hsym2 with hsym2
              subst hsym2
              refine ⟨sym, hsym, hn, 0, ?_, by omega⟩
              rw [scopeChain]
              simp only [hsc]
              simpa using hscope.symm
          | none =>
              simp only [hlk] at h
              cases hps : sc.parentScope with
              | none =>
                  simp only [hps] at h
                  exact Option.noConfusion h
              | some ps =>
                  simp only [hps] at h
                  obtain ⟨sym, hsym, hn, k, hck, hprev⟩ := ih ps i h
                  refine ⟨sym, hsym, hn, k + 1, ?_, ?_⟩
                  · rw [scopeChain]
                    simp only [hsc, hps]
                    simpa using hck
                  · intro j hj t hjt
                    rw [scopeChain] at hjt
                    simp only [hsc, hps] at hjt
                    cases j with
                    | zero =>
                        simp at hjt
                        subst hjt
                        unfold scopeDeclaresAt
                        rw [hsc]
                        exact scopeLookup_none_decl hlk
                    | succ j =>
                        simp at hjt
                        exact hprev j (by omega) t hjt

theorem resolveRef_none_iff {scopes : List ScopeInfo} {symbols : List SymbolInfo}
    {name : Nat} :
    ∀ (fuel scId : Nat), resolveRef scopes symbols name fuel scId = none ↔
      (∀ t ∈ scopeChain scopes fuel scId,
        scopeDeclaresAt scopes symbols t name = false) := by
  intro fuel
  induction fuel with
  | zero =>
      intro scId
      simp [resolveRef, scopeChain]
  | succ fuel ih =>
      intro scId
      rw [resolveRef, scopeChain]
      cases hsc : scopes[scId]? with
      | none => simp
      | some sc =>
          show (match scopeLookup symbols sc name with
                | some i => some i
                | none =>
                    match sc.parentScope with
                    | none => none
                    | some ps => resolveRef scopes symbols name fuel ps) = none ↔
            (∀ t ∈ scId :: (match sc.parentScope with
                            | none => []
                            | some ps => scopeChain scopes fuel ps),
              scopeDeclaresAt scopes symbols t name = false)
          cases hlk : scopeLookup symbols sc name with
          | some i =>
              constructor
              · intro h
                simp at h
              · intro h
                have hdec := h scId (by simp)
                have htrue : scopeDeclaresAt scopes symbols scId name = true := by
                  unfold scopeDeclaresAt
                  rw [hsc]
                  exact scopeLookup_some_decl hlk
                rw [htrue] at hdec
                exact absurd hdec (by simp)
          | none =>
              have hdecl : scopeDeclaresAt scopes symbols scId name = false := by
                unfold scopeDeclaresAt
                rw [hsc]
                exact scopeLookup_none_decl hlk
              cases hps : sc.parentScope with
              | none =>
                  constructor
                  · intro _ t ht
                    simp at ht
                    subst ht
                    exact hdecl
                  · intro _
                    rfl
              | some ps =>
                  show resolveRef scopes symbols name fuel ps = none ↔
                    ∀ t ∈ scId :: scopeChain scopes fuel ps,
                      scopeDeclaresAt scopes symbols t name = false
                  rw [ih ps]
                  constructor
                  · intro h t ht
                    rcases List.mem_cons.mp ht with rfl | ht2
                    · exact hdecl
                    · exact h t ht2
                  · intro h t ht
                    exact h t (List.mem_cons.mpr (Or.inr ht))

theorem optionMapList_mem {α β : Type} {f : α → Option β} :
    ∀ {l : List α} {out : List β}, optionMapList f l = some out →
      ∀ y ∈ out, ∃ x ∈ l, f x = some y := by
  intro l
  induction l with
  | nil =>
      intro out h y hy
      simp [optionMapList] at h
      subst h
      simp at hy
  | cons x t ih =>
      intro out h y hy
      rw [optionMapList] at h
      cases hfx : f x with
      | none => rw [hfx] at h; exact Option.noConfusion h
      | some y0 =>
          rw [hfx] at h
          cases hrest : optionMapList f t with
          | none => rw [hrest] at h; exact Option.noConfusion h
          | some out0 =>
              rw [hrest] at h
              injection h with h
              subst h
              rcases List.mem_cons.mp hy with rfl | hy2
              · exact ⟨x, by simp, hfx⟩
              · obtain ⟨x2, hx2, hfx2⟩ := ih hrest y hy2
                exact ⟨x2, by simp [hx2], hfx2⟩

/-! ## Claim C1 -/

/-- C1 as amended: the claimed resolution semantics holds exactly under the
contiguity premise the claim itself presupposes — every slot of a scope's
stored range holding a symbol owned by that scope (`rangeScopedB`): then a
resolved id points at a symbol whose name matches and whose owning scope is
on the symref's parent chain (ancestor or equal), it is the nearest chain
scope declaring the name, resolution is fatal (`none`) exactly when no
chain scope declares the name, and a successful pass sets `sym` on every
symref.  Unconditionally the claim is false on reachable parser states,
where the C7 interleaving makes the stored ranges inexact: see the C1
counterexample at the end of the file. -/
theorem C1_symbol_resolution (scopes : List ScopeInfo) (symbols : List SymbolInfo)
    (hrange : rangeScopedB scopes symbols = true) :
    (∀ name refScope i : Nat,
      resolveRef scopes symbols name scopes.length refScope = some i →
      ∃ sym : SymbolInfo, symbols[i]? = some sym ∧ sym.name = name ∧
        ∃ k : Nat, (scopeChain scopes scopes.length refScope)[k]? = some sym.scope ∧
          (∀ j : Nat, j < k → ∀ t : Nat,
            (scopeChain scopes scopes.length refScope)[j]? = some t →
            scopeDeclaresAt scopes symbols t name = false)) ∧
    (∀ name refScope : Nat,
      resolveRef scopes symbols name scopes.length refScope = none ↔
      (∀ t ∈ scopeChain scopes scopes.length refScope,
        scopeDeclaresAt scopes symbols t name = false)) ∧
    (∀ (symrefs out : List SymrefInfo),
      resolve_symrefs scopes symbols symrefs = some out →
      ∀ r ∈ out, ∃ i : Nat, r.sym = some i ∧
        resolveRef scopes symbols r.name scopes.length r.refScope = some i) := by
  refine ⟨?_, ?_, ?_⟩
  · intro name refScope i h
    exact resolveRef_some_spec hrange scopes.length refScope i h
  · intro name refScope
    exact resolveRef_none_iff scopes.length refScope
  · intro symrefs out hpass r hr
    obtain ⟨x, hx, hfx⟩ := optionMapList_mem hpass r hr
    rw [Option.map_eq_some'] at hfx
    obtain ⟨i, hres, hri⟩ := hfx
    subst hri
    exact ⟨i, rfl, hres⟩

theorem C1_symbol_resolution_witness :
    rangeScopedB
        [⟨none, 0, 1, SCOPE_GLOBAL, none⟩, ⟨some 0, 1, 1, SCOPE_PROC, some 0⟩]
        [⟨20, 0, .tData 0⟩, ⟨21, 1, .tParam 0⟩] = true ∧
    (∀ (symrefs out : List SymrefInfo),
      resolve_symrefs
          [⟨none, 0, 1, SCOPE_GLOBAL, none⟩, ⟨some 0, 1, 1, SCOPE_PROC, some 0⟩]
          [⟨20, 0, .tData 0⟩, ⟨21, 1, .tParam 0⟩] symrefs = some out →
      ∀ r ∈ out, ∃ i : Nat, r.sym = some i ∧
        resolveRef
            [⟨none, 0, 1, SCOPE_GLOBAL, none⟩, ⟨some 0, 1, 1, SCOPE_PROC, some 0⟩]
            [⟨20, 0, .tData 0⟩, ⟨21, 1, .tParam 0⟩] r.name
            ([(⟨none, 0, 1, SCOPE_GLOBAL, none⟩ : ScopeInfo),
              ⟨some 0, 1, 1, SCOPE_PROC, some 0⟩] : List ScopeInfo).length
            r.refScope = some i) :=
  ⟨by decide,
    (C1_symbol_resolution
      [⟨none, 0, 1, SCOPE_GLOBAL, none⟩, ⟨some 0, 1, 1, SCOPE_PROC, some 0⟩]
      [⟨20, 0, .tData 0⟩, ⟨21, 1, .tParam 0⟩] (by decide)).2.2⟩

/-! ## Type completer (claims C2, C3, C4)

The completer pass is not under `src/`; it is modelled from spec §4.F over
the `TypeInfo`/`ReftypeInfo`/`ParamtypeInfo` records of `api.h`: repeatedly
sweep all types, marking complete those whose direct dependencies are
complete, until a full sweep produces no change; a `TYPE_REFERENCE` caches
the target type id in `resolvedTp` when marked; on fixpoint any incomplete
type is fatal. -/

section Completer

variable (symrefs : List SymrefInfo) (symbols : List SymbolInfo)
variable (paramtypes : List ParamtypeInfo)

/-- Is type id `t` currently marked complete? (out-of-range: false). -/
def completeAt (types : List TypeInfo) (t : Nat) : Bool :=
  match types[t]? with
  | some ti => ti.isComplete
  | none => false

/-- The target type of a `TYPE_REFERENCE`: follow the symref's resolved
symbol, which must be a `SYMBOL_TYPE`, to the type it names. -/
def refTarget (ref : Nat) : Option Nat :=
  match symrefs[ref]? with
  | some sr =>
      match sr.sym with
      | some symId =>
          match symbols[symId]? with
          | some sym =>
              match sym.payload with
              | .tType tp => some tp
              | _ => none
          | none => none
      | none => none
  | none => none

/-- Are the direct dependencies of a type payload complete under the current
flags? (spec §4.F: the condition for marking a type complete). -/
def typeReady (types : List TypeInfo) : TypePayload → Bool
  | .tBase _ _ => true
  | .tEntity _ tp => completeAt types tp
  | .tArray idxtp valuetp => completeAt types idxtp && completeAt types valuetp
  | .tProc rettp nargs firstParamtype =>
      completeAt types rettp &&
      (List.range nargs).all fun k =>
        match paramtypes[firstParamtype + k]? with
        | some pt => completeAt types pt.argtp
        | none => false
  | .tRef ref _ =>
      match refTarget symrefs symbols ref with
      | some tp => completeAt types tp
      | none => false

/-- Marking a payload complete: a `TYPE_REFERENCE` caches `resolvedTp`. -/
def markComplete : TypePayload → TypePayload
  | .tRef ref _ => .tRef ref (refTarget symrefs symbols ref)
  | pl => pl

/-- One step of a sweep: visit type `t`, marking it if its dependencies are
complete. -/
def sweepStep (acc : List TypeInfo) (t : Nat) : List TypeInfo :=
  match acc[t]? with
  | some ti =>
      if ti.isComplete then acc
      else if typeReady symrefs symbols paramtypes acc ti.payload then
        acc.set t ⟨markComplete symrefs symbols ti.payload, true⟩
      else acc
  | none => acc

/-- One full sweep over all types, in arena order, updating in place. -/
def sweepTypes (types : List TypeInfo) : List TypeInfo :=
  (List.range types.length).foldl (sweepStep symrefs symbols paramtypes) types

/-- `n` sweeps. -/
def sweepN : Nat → List TypeInfo → List TypeInfo
  | 0, types => types
  | n + 1, types => sweepN n (sweepTypes symrefs symbols paramtypes types)

/-- Modelled from the spec (§4.F): the complete-types pass.  With `N` types,
`N` sweeps reach the fixpoint (proved below); at the fixpoint any
still-incomplete type is fatal (`none`). -/
def complete_types (types : List TypeInfo) : Option (List TypeInfo) :=
  let final := sweepN symrefs symbols paramtypes types.length types
  if final.all (fun ti => ti.isComplete) then some final else none

/-- The completion characterization, written from the words of claim C2: a
type is complete iff it is a base type, or an entity whose inner type is
complete, or an array whose index and value types are both complete, or a
proc type whose return type and all parameter types are complete, or a
reference whose symref resolves to a `SYMBOL_TYPE` symbol naming a complete
type. -/
def completeChar (types : List TypeInfo) (t : Nat) : Bool :=
  match types[t]? with
  | none => false
  | some ti =>
      match ti.payload with
      | .tBase _ _ => true
      | .tEntity _ tp => completeAt types tp
      | .tArray idxtp valuetp => completeAt types idxtp && completeAt types valuetp
      | .tProc rettp nargs firstParamtype =>
          completeAt types rettp &&
          (List.range nargs).all fun k =>
            match paramtypes[firstParamtype + k]? with
            | some pt => completeAt types pt.argtp
            | none => false
      | .tRef ref _ =>
          match symrefs[ref]? with
          | some sr =>
              match sr.sym with
              | some symId =>
                  match symbols[symId]? with
                  | some sym =>
                      sym.kind = SYMBOL_TYPE &&
                      (match sym.payload with
                       | .tType tp => completeAt types tp
                       | _ => false)
                  | none => false
              | none => false
          | none => false

/-- Parser output starts with `isComplete` set only on base types (all
composite types are created incomplete, spec §3 lifecycle). -/
def initFlagsOK (types : List TypeInfo) : Bool :=
  types.all fun ti =>
    !ti.isComplete ||
      (match ti.payload with
       | .tBase _ _ => true
       | _ => false)

end Completer

/-! ### Completer lemmas -/

section CompleterLemmas

variable (symrefs : List SymrefInfo) (symbols : List SymbolInfo)
variable (paramtypes : List ParamtypeInfo)

theorem completeAt_eq_some {types : List TypeInfo} {t : Nat} {ti : TypeInfo}
    (h : types[t]? = some ti) : completeAt types t = ti.isComplete := by
  unfold completeAt
  rw [h]

theorem completeAt_lt {types : List TypeInfo} {t : Nat}
    (h : completeAt types t = true) : t < types.length := by
  unfold completeAt at h
  cases hx : types[t]? with
  | none => rw [hx] at h; exact absurd h (by simp)
  | some ti => exact (List.getElem?_eq_some_iff.mp hx).1

theorem completeAt_set_true {acc : List TypeInfo} {t x : Nat} {pl : TypePayload}
    (h : completeAt acc x = true) :
    completeAt (acc.set t ⟨pl, true⟩) x = true := by
  by_cases hx : x = t
  · subst hx
    have hlt : x < acc.length := completeAt_lt h
    rw [completeAt_eq_some (by rw [List.getElem?_set_self]; exact hlt)]
  · unfold completeAt at h ⊢
    rw [List.getElem?_set_ne (fun he => hx he.symm)]
    exact h

theorem typeReady_mono {ts ts' : List TypeInfo} {pl : TypePayload}
    (hm : ∀ x, completeAt ts x = true → completeAt ts' x = true)
    (h : typeReady symrefs symbols paramtypes ts pl = true) :
    typeReady symrefs symbols paramtypes ts' pl = true := by
  cases pl with
  | tBase n sz => rfl
  | tEntity n tp => exact hm _ h
  | tArray i v =>
      rw [typeReady, Bool.and_eq_true] at h ⊢
      exact ⟨hm _ h.1, hm _ h.2⟩
  | tProc ret nargs first =>
      rw [typeReady, Bool.and_eq_true] at h ⊢
      refine ⟨hm _ h.1, ?_⟩
      rw [List.all_eq_true] at h ⊢
      intro k hk
      have h2 := h.2 k hk
      cases hpt : paramtypes[first + k]? with
      | none => rw [hpt] at h2; simp at h2
      | some pt => rw [hpt] at h2; exact hm _ h2
  | tRef ref r =>
      rw [typeReady] at h ⊢
      cases htg : refTarget symrefs symbols ref with
      | none => rw [htg] at h; simp at h
      | some tp => rw [htg] at h; exact hm _ h

theorem typeReady_markComplete (ts : List TypeInfo) (pl : TypePayload) :
    typeReady symrefs symbols paramtypes ts (markComplete symrefs symbols pl)
      = typeReady symrefs symbols paramtypes ts pl := by
  cases pl <;> rfl

theorem sweepStep_length (acc : List TypeInfo) (t : Nat) :
    (sweepStep symrefs symbols paramtypes acc t).length = acc.length := by
  unfold sweepStep
  cases hacc : acc[t]? with
  | none => rfl
  | some ti =>
      by_cases h1 : ti.isComplete
      · simp [h1]
      · by_cases h2 : typeReady symrefs symbols paramtypes acc ti.payload
        · simp [h1, h2]
        · simp [h1, h2]

theorem sweepStep_flag_mono (acc : List TypeInfo) (t x : Nat)
    (h : completeAt acc x = true) :
    completeAt (sweepStep symrefs symbols paramtypes acc t) x = true := by
  unfold sweepStep
  cases hacc : acc[t]? with
  | none => exact h
  | some ti =>
      by_cases h1 : ti.isComplete
      · simp only [h1, if_true]
        exact h
      · by_cases h2 : typeReady symrefs symbols paramtypes acc ti.payload
        · simp only [h1, h2, if_true, if_false, Bool.false_eq_true]
          exact completeAt_set_true h
        · simp only [h1, h2, if_false, Bool.false_eq_true]
          exact h

theorem sweepStep_entry (acc : List TypeInfo) (t x : Nat) :
    (sweepStep symrefs symbols paramtypes acc t)[x]? = acc[x]? ∨
    (x = t ∧ ∃ ti, acc[t]? = some ti ∧ ti.isComplete = false ∧
      typeReady symrefs symbols paramtypes acc ti.payload = true ∧
      (sweepStep symrefs symbols paramtypes acc t)[x]?
        = some ⟨markComplete symrefs symbols ti.payload, true⟩) := by
  unfold sweepStep
  cases hacc : acc[t]? with
  | none => exact Or.inl (by trivial)
  | some ti =>
      by_cases h1 : ti.isComplete
      · simp only [h1, if_true]
        exact Or.inl (by trivial)
      · by_cases h2 : typeReady symrefs symbols paramtypes acc ti.payload
        · simp only [h1, h2, if_true, if_false, Bool.false_eq_true]
          by_cases hx : x = t
          · subst hx
            refine Or.inr ⟨rfl, ti, by trivial, by simpa using h1, h2, ?_⟩
            rw [List.getElem?_set_self]
            exact (List.getElem?_eq_some_iff.mp hacc).1
          · exact Or.inl (List.getElem?_set_ne (fun he => hx he.symm))
        · simp only [h1, h2, if_false, Bool.false_eq_true]
          exact Or.inl (by trivial)

theorem foldl_sweep_length (l : List Nat) :
    ∀ acc : List TypeInfo,
      (l.foldl (sweepStep symrefs symbols paramtypes) acc).length = acc.length := by
  induction l with
  | nil => intro acc; rfl
  | cons u rest ih =>
      intro acc
      rw [List.foldl_cons, ih]
      exact sweepStep_length symrefs symbols paramtypes acc u

theorem foldl_sweep_flag_mono (l : List Nat) :
    ∀ (acc : List TypeInfo) (x : Nat), completeAt acc x = true →
      completeAt (l.foldl (sweepStep symrefs symbols paramtypes) acc) x = true := by
  induction l with
  | nil => intro acc x h; exact h
  | cons u rest ih =>
      intro acc x h
      rw [List.foldl_cons]
      exact ih _ x (sweepStep_flag_mono symrefs symbols paramtypes acc u x h)

theorem foldl_sweep_entry (l : List Nat) :
    ∀ (acc : List TypeInfo) (x : Nat),
      (l.foldl (sweepStep symrefs symbols paramtypes) acc)[x]? = acc[x]? ∨
      (∃ ti, acc[x]? = some ti ∧ ti.isComplete = false ∧
        (l.foldl (sweepStep symrefs symbols paramtypes) acc)[x]?
          = some ⟨markComplete symrefs symbols ti.payload, true⟩) := by
  induction l with
  | nil => intro acc x; exact Or.inl rfl
  | cons u rest ih =>
      intro acc x
      rw [List.foldl_cons]
      rcases ih (sweepStep symrefs symbols paramtypes acc u) x with hsame | ⟨ti, hti, hinc, hset⟩
      · rcases sweepStep_entry symrefs symbols paramtypes acc u x with h2 | ⟨hx, ti, hti, hinc, hrdy, hset⟩
        · exact Or.inl (by rw [hsame, h2])
        · subst hx
          exact Or.inr ⟨ti, hti, hinc, by rw [hsame, hset]⟩
      · rcases sweepStep_entry symrefs symbols paramtypes acc u x with h2 | ⟨hx, ti2, hti2, hinc2, hrdy2, hset2⟩
        · rw [h2] at hti
          exact Or.inr ⟨ti, hti, hinc, hset⟩
        · subst hx
          rw [hset2] at hti
          injection hti with hti
          rw [← hti] at hinc
          exact absurd hinc (by simp)

theorem foldl_sweep_sets (l : List Nat) :
    ∀ (acc : List TypeInfo) (t : Nat) (ti : TypeInfo), t ∈ l →
      acc[t]? = some ti → ti.isComplete = false →
      typeReady symrefs symbols paramtypes acc ti.payload = true →
      completeAt (l.foldl (sweepStep symrefs symbols paramtypes) acc) t = true := by
  induction l with
  | nil => intro acc t ti hmem; simp at hmem
  | cons u rest ih =>
      intro acc t ti hmem hacc hinc hrdy
      rw [List.foldl_cons]
      by_cases hx : t = u
      · subst hx
        have hstep : completeAt (sweepStep symrefs symbols paramtypes acc t) t = true := by
          unfold sweepStep
          rw [hacc]
          simp only [hinc, hrdy, if_true, if_false, Bool.false_eq_true]
          exact completeAt_eq_some (by
            rw [List.getElem?_set_self]
            exact (List.getElem?_eq_some_iff.mp hacc).1) ▸ rfl
        exact foldl_sweep_flag_mono symrefs symbols paramtypes rest _ t hstep
      · have hmem2 : t ∈ rest := by
          rcases List.mem_cons.mp hmem with h | h
          · exact absurd h hx
          · exact h
        rcases sweepStep_entry symrefs symbols paramtypes acc u t with h2 | ⟨hxu, _⟩
        · refine ih _ t ti hmem2 (by rw [h2]; exact hacc) hinc ?_
          refine typeReady_mono symrefs symbols paramtypes ?_ hrdy
          intro x hx2
          exact sweepStep_flag_mono symrefs symbols paramtypes acc u x hx2
        · exact absurd hxu hx

end CompleterLemmas

theorem filter_length_mono {α : Type} (p q : α → Bool) :
    ∀ l : List α, (∀ x ∈ l, p x = true → q x = true) →
      (l.filter p).length ≤ (l.filter q).length := by
  intro l
  induction l with
  | nil => intro _; simp
  | cons a t ih =>
      intro h
      have ht := ih (fun x hx => h x (by simp [hx]))
      by_cases hpa : p a = true
      · have hqa := h a (by simp) hpa
        simp [List.filter_cons, hpa, hqa]
        omega
      · have hpa' : p a = false := by simpa using hpa
        simp only [List.filter_cons, hpa']
        by_cases hqa : q a = true
        · simp [hqa]; omega
        · have hqa' : q a = false := by simpa using hqa
          simp [hqa']; omega

theorem filter_length_strict {α : Type} (p q : α → Bool) :
    ∀ l : List α, (∀ x ∈ l, p x = true → q x = true) →
      ∀ x0 ∈ l, p x0 = false → q x0 = true →
        (l.filter p).length < (l.filter q).length := by
  intro l
  induction l with
  | nil => intro _ x0 hx0; simp at hx0
  | cons a t ih =>
      intro h x0 hx0 hp hq
      have hmono := filter_length_mono p q t (fun x hx => h x (by simp [hx]))
      rcases List.mem_cons.mp hx0 with rfl | hx0t
      · simp only [List.filter_cons, hp, hq]
        simp
        omega
      · have hstrict := ih (fun x hx => h x (by simp [hx])) x0 hx0t hp hq
        simp only [List.filter_cons]
        by_cases hpa : p a = true
        · have hqa := h a (by simp) hpa
          simp [hpa, hqa]
          omega
        · have hpa' : p a = false := by simpa using hpa
          by_cases hqa : q a = true
          · simp [hpa', hqa]; omega
          · have hqa' : q a = false := by simpa using hqa
            simp [hpa', hqa']; omega

theorem filter_length_all {α : Type} (p : α → Bool) :
    ∀ l : List α, (l.filter p).length = l.length → ∀ x ∈ l, p x = true := by
  intro l
  induction l with
  | nil => intro _ x hx; simp at hx
  | cons a t ih =>
      intro h x hx
      by_cases hpa : p a = true
      · rcases List.mem_cons.mp hx with rfl | hxt
        · exact hpa
        · simp only [List.filter_cons, hpa, if_true, List.length_cons] at h
          exact ih (by omega) x hxt
      · have hpa' : p a = false := by simpa using hpa
        simp only [List.filter_cons, hpa', Bool.false_eq_true, if_false,
          List.length_cons] at h
        have := List.length_filter_le p t
        omega

section CompleterFix

variable (symrefs : List SymrefInfo) (symbols : List SymbolInfo)
variable (paramtypes : List ParamtypeInfo)

/-- The number of complete types (the termination measure of §4.F). -/
def trueCountT (ts : List TypeInfo) : Nat :=
  ((List.range ts.length).filter (fun t => completeAt ts t)).length

theorem sweepTypes_length (ts : List TypeInfo) :
    (sweepTypes symrefs symbols paramtypes ts).length = ts.length :=
  foldl_sweep_length symrefs symbols paramtypes _ ts

theorem sweepTypes_flag_mono (ts : List TypeInfo) (x : Nat)
    (h : completeAt ts x = true) :
    completeAt (sweepTypes symrefs symbols paramtypes ts) x = true :=
  foldl_sweep_flag_mono symrefs symbols paramtypes _ ts x h

theorem sweepTypes_sets (ts : List TypeInfo) (t : Nat) (ti : TypeInfo)
    (hacc : ts[t]? = some ti) (hinc : ti.isComplete = false)
    (hrdy : typeReady symrefs symbols paramtypes ts ti.payload = true) :
    completeAt (sweepTypes symrefs symbols paramtypes ts) t = true :=
  foldl_sweep_sets symrefs symbols paramtypes _ ts t ti
    (List.mem_range.mpr (List.getElem?_eq_some_iff.mp hacc).1) hacc hinc hrdy

theorem sweepTypes_id_of_all (ts : List TypeInfo)
    (h : ∀ (t : Nat) (ti : TypeInfo), ts[t]? = some ti → ti.isComplete = true) :
    sweepTypes symrefs symbols paramtypes ts = ts := by
  have key : ∀ l : List Nat, l.foldl (sweepStep symrefs symbols paramtypes) ts = ts := by
    intro l
    induction l with
    | nil => rfl
    | cons u rest ih =>
        rw [List.foldl_cons]
        have hstep : sweepStep symrefs symbols paramtypes ts u = ts := by
          unfold sweepStep
          cases hacc : ts[u]? with
          | none => rfl
          | some ti => simp [h u ti hacc]
        rw [hstep, ih]
  exact key _

theorem sweepTypes_progress (ts : List TypeInfo)
    (hne : sweepTypes symrefs symbols paramtypes ts ≠ ts) :
    trueCountT ts < trueCountT (sweepTypes symrefs symbols paramtypes ts) := by
  have hx : ∃ x : Nat, (sweepTypes symrefs symbols paramtypes ts)[x]? ≠ ts[x]? := by
    by_contra hall
    push_neg at hall
    exact hne (List.ext_getElem? hall)
  obtain ⟨x, hx⟩ := hx
  rcases foldl_sweep_entry symrefs symbols paramtypes _ ts x with heq | ⟨ti, hti, hinc, hset⟩
  · exact absurd heq hx
  · unfold trueCountT
    rw [sweepTypes_length]
    refine filter_length_strict _ _ (List.range ts.length)
      (fun y _ hy => sweepTypes_flag_mono symrefs symbols paramtypes ts y hy) x
      (List.mem_range.mpr (List.getElem?_eq_some_iff.mp hti).1) ?_ ?_
    · rw [completeAt_eq_some hti]
      exact hinc
    · exact completeAt_eq_some hset

theorem sweepN_succ_out (k : Nat) :
    ∀ ts : List TypeInfo, sweepN symrefs symbols paramtypes (k + 1) ts
      = sweepTypes symrefs symbols paramtypes (sweepN symrefs symbols paramtypes k ts) := by
  induction k with
  | zero => intro ts; rfl
  | succ k ih =>
      intro ts
      show sweepN symrefs symbols paramtypes (k + 1)
          (sweepTypes symrefs symbols paramtypes ts) = _
      rw [ih (sweepTypes symrefs symbols paramtypes ts)]
      rfl

theorem sweepN_length (k : Nat) :
    ∀ ts : List TypeInfo, (sweepN symrefs symbols paramtypes k ts).length = ts.length := by
  induction k with
  | zero => intro ts; rfl
  | succ k ih =>
      intro ts
      show (sweepN symrefs symbols paramtypes k
          (sweepTypes symrefs symbols paramtypes ts)).length = _
      rw [ih, sweepTypes_length]

theorem fix_reached (ts : List TypeInfo) :
    sweepTypes symrefs symbols paramtypes
        (sweepN symrefs symbols paramtypes ts.length ts)
      = sweepN symrefs symbols paramtypes ts.length ts := by
  have key : ∀ k : Nat,
      sweepTypes symrefs symbols paramtypes (sweepN symrefs symbols paramtypes k ts)
        = sweepN symrefs symbols paramtypes k ts ∨
      k ≤ trueCountT (sweepN symrefs symbols paramtypes k ts) := by
    intro k
    induction k with
    | zero => exact Or.inr (Nat.zero_le _)
    | succ k ih =>
        rcases ih with hfix | hk
        · left
          rw [sweepN_succ_out, hfix, hfix]
        · by_cases hfix2 : sweepTypes symrefs symbols paramtypes
              (sweepN symrefs symbols paramtypes k ts)
              = sweepN symrefs symbols paramtypes k ts
          · left
            rw [sweepN_succ_out, hfix2, hfix2]
          · right
            rw [sweepN_succ_out]
            have := sweepTypes_progress symrefs symbols paramtypes
              (sweepN symrefs symbols paramtypes k ts) hfix2
            omega
  rcases key ts.length with hfix | hN
  · exact hfix
  · have hlen : (sweepN symrefs symbols paramtypes ts.length ts).length = ts.length :=
      sweepN_length symrefs symbols paramtypes ts.length ts
    have hall : ∀ x ∈ List.range ts.length,
        completeAt (sweepN symrefs symbols paramtypes ts.length ts) x = true := by
      apply filter_length_all
        (fun t => completeAt (sweepN symrefs symbols paramtypes ts.length ts) t)
        (List.range ts.length)
      have h1 : ((List.range ts.length).filter
          (fun t => completeAt (sweepN symrefs symbols paramtypes ts.length ts) t)).length
          ≤ (List.range ts.length).length := List.length_filter_le _ _
      have h2 : ts.length ≤ ((List.range ts.length).filter
          (fun t => completeAt (sweepN symrefs symbols paramtypes ts.length ts) t)).length := by
        unfold trueCountT at hN
        rw [hlen] at hN
        exact hN
      simp only [List.length_range] at h1 ⊢
      omega
    apply sweepTypes_id_of_all
    intro t ti hti
    have hlt : t < ts.length := by
      have := (List.getElem?_eq_some_iff.mp hti).1
      omega
    have := hall t (List.mem_range.mpr hlt)
    rw [completeAt_eq_some hti] at this
    exact this

end CompleterFix

theorem mem_of_getElem_opt {α : Type} {l : List α} {n : Nat} {a : α}
    (h : l[n]? = some a) : a ∈ l := by
  obtain ⟨hlt, hg⟩ := List.getElem?_eq_some_iff.mp h
  exact hg ▸ List.getElem_mem hlt

section CompleterInv

variable (symrefs : List SymrefInfo) (symbols : List SymbolInfo)
variable (paramtypes : List ParamtypeInfo)

/-- Cache condition: a `TYPE_REFERENCE` payload's `resolvedTp` equals the
reference's target. -/
def cacheOK (pl : TypePayload) : Prop :=
  ∀ (ref : Nat) (r : Option Nat), pl = .tRef ref r → r = refTarget symrefs symbols ref

/-- Invariant of the completer: every type marked complete really has its
direct dependencies complete, and a complete reference has its target
cached. -/
def flagsInv (ts : List TypeInfo) : Prop :=
  ∀ (t : Nat) (ti : TypeInfo), ts[t]? = some ti → ti.isComplete = true →
    typeReady symrefs symbols paramtypes ts ti.payload = true ∧
    cacheOK symrefs symbols ti.payload

theorem cacheOK_markComplete (pl : TypePayload) :
    cacheOK symrefs symbols (markComplete symrefs symbols pl) := by
  intro ref r heq
  cases pl with
  | tRef ref0 r0 =>
      rw [markComplete] at heq
      injection heq with h1 h2
      subst h1
      exact h2.symm
  | tBase n sz => simp [markComplete] at heq
  | tEntity n tp => simp [markComplete] at heq
  | tArray i v => simp [markComplete] at heq
  | tProc a b c => simp [markComplete] at heq

theorem sweepStep_inv (acc : List TypeInfo) (u : Nat)
    (h : flagsInv symrefs symbols paramtypes acc) :
    flagsInv symrefs symbols paramtypes (sweepStep symrefs symbols paramtypes acc u) := by
  intro x ti' hx hc
  have hmono : ∀ y, completeAt acc y = true →
      completeAt (sweepStep symrefs symbols paramtypes acc u) y = true :=
    fun y hy => sweepStep_flag_mono symrefs symbols paramtypes acc u y hy
  rcases sweepStep_entry symrefs symbols paramtypes acc u x with heq | ⟨hxu, ti, hti, hinc, hrdy, hset⟩
  · rw [heq] at hx
    obtain ⟨hready, hcache⟩ := h x ti' hx hc
    exact ⟨typeReady_mono symrefs symbols paramtypes hmono hready, hcache⟩
  · subst hxu
    rw [hset] at hx
    injection hx with hx
    subst hx
    constructor
    · rw [typeReady_markComplete]
      exact typeReady_mono symrefs symbols paramtypes hmono hrdy
    · exact cacheOK_markComplete symrefs symbols ti.payload

theorem sweepTypes_inv (ts : List TypeInfo)
    (h : flagsInv symrefs symbols paramtypes ts) :
    flagsInv symrefs symbols paramtypes (sweepTypes symrefs symbols paramtypes ts) := by
  unfold sweepTypes
  generalize List.range ts.length = l
  induction l generalizing ts with
  | nil => exact h
  | cons u rest ih =>
      rw [List.foldl_cons]
      exact ih _ (sweepStep_inv symrefs symbols paramtypes ts u h)

theorem sweepN_inv (k : Nat) :
    ∀ ts : List TypeInfo, flagsInv symrefs symbols paramtypes ts →
      flagsInv symrefs symbols paramtypes (sweepN symrefs symbols paramtypes k ts) := by
  induction k with
  | zero => intro ts h; exact h
  | succ k ih =>
      intro ts h
      exact ih _ (sweepTypes_inv symrefs symbols paramtypes ts h)

theorem init_inv (ts : List TypeInfo) (h : initFlagsOK ts = true) :
    flagsInv symrefs symbols paramtypes ts := by
  intro t ti hti hc
  unfold initFlagsOK at h
  rw [List.all_eq_true] at h
  have hmem : ti ∈ ts := mem_of_getElem_opt hti
  have hb := h ti hmem
  rw [hc] at hb
  simp only [Bool.not_true, Bool.false_or] at hb
  cases hpl : ti.payload with
  | tBase n sz =>
      constructor
      · rfl
      · intro ref r heq
        exact absurd heq (by simp)
  | tEntity n tp => rw [hpl] at hb; simp at hb
  | tArray i v => rw [hpl] at hb; simp at hb
  | tProc a b c => rw [hpl] at hb; simp at hb
  | tRef ref r => rw [hpl] at hb; simp at hb

theorem completeChar_eq (ts : List TypeInfo) (t : Nat) (ti : TypeInfo)
    (h : ts[t]? = some ti) :
    completeChar symrefs symbols paramtypes ts t
      = typeReady symrefs symbols paramtypes ts ti.payload := by
  cases hpl : ti.payload with
  | tBase n sz => simp [completeChar, typeReady, h, hpl]
  | tEntity n tp => simp [completeChar, typeReady, h, hpl]
  | tArray i v => simp [completeChar, typeReady, h, hpl]
  | tProc a b c => simp [completeChar, typeReady, h, hpl]
  | tRef ref r =>
      cases hsr : symrefs[ref]? with
      | none => simp [completeChar, typeReady, refTarget, h, hpl, hsr]
      | some sr =>
          cases hss : sr.sym with
          | none => simp [completeChar, typeReady, refTarget, h, hpl, hsr, hss]
          | some symId =>
              cases hsym : symbols[symId]? with
              | none =>
                  simp [completeChar, typeReady, refTarget, h, hpl, hsr, hss, hsym]
              | some sym =>
                  cases hsp : sym.payload with
                  | tType tp =>
                      simp [completeChar, typeReady, refTarget, SymbolInfo.kind,
                        h, hpl, hsr, hss, hsym, hsp]
                  | tData d =>
                      simp [completeChar, typeReady, refTarget, SymbolInfo.kind,
                        h, hpl, hsr, hss, hsym, hsp]
                  | tArray a =>
                      simp [completeChar, typeReady, refTarget, SymbolInfo.kind,
                        h, hpl, hsr, hss, hsym, hsp]
                  | tProc p =>
                      simp [completeChar, typeReady, refTarget, SymbolInfo.kind,
                        h, hpl, hsr, hss, hsym, hsp]
                  | tParam p =>
                      simp [completeChar, typeReady, refTarget, SymbolInfo.kind,
                        h, hpl, hsr, hss, hsym, hsp]

end CompleterInv

/-! ## Claims C2 and C3 -/

/-- C2: at the fixpoint computed by the type-completion pass, a type's
`isComplete` flag is `true` exactly when the completion characterization of
the claim holds of it (base; entity with complete inner; array with both
sides complete; proc with complete return and parameter types; reference
whose symref resolves to a `SYMBOL_TYPE` symbol naming a complete type),
provided the parser-produced input flags mark only base types complete. -/
theorem C2_completion_characterization (symrefs : List SymrefInfo)
    (symbols : List SymbolInfo) (paramtypes : List ParamtypeInfo)
    (types0 : List TypeInfo) (hinit : initFlagsOK types0 = true) :
    ∀ t : Nat,
      completeAt (sweepN symrefs symbols paramtypes types0.length types0) t
        = completeChar symrefs symbols paramtypes
            (sweepN symrefs symbols paramtypes types0.length types0) t := by
  have hfix := fix_reached symrefs symbols paramtypes types0
  have hinv := sweepN_inv symrefs symbols paramtypes types0.length types0
    (init_inv symrefs symbols paramtypes types0 hinit)
  intro t
  cases hF : (sweepN symrefs symbols paramtypes types0.length types0)[t]? with
  | none =>
      unfold completeAt completeChar
      rw [hF]
  | some ti =>
      rw [completeAt_eq_some hF, completeChar_eq symrefs symbols paramtypes _ t ti hF]
      by_cases hc : ti.isComplete = true
      · rw [hc]
        exact ((hinv t ti hF hc).1).symm
      · have hc' : ti.isComplete = false := by simpa using hc
        rw [hc']
        by_cases hr : typeReady symrefs symbols paramtypes
            (sweepN symrefs symbols paramtypes types0.length types0) ti.payload = true
        · exfalso
          have hset := sweepTypes_sets symrefs symbols paramtypes _ t ti hF hc' hr
          rw [hfix] at hset
          rw [completeAt_eq_some hF, hc'] at hset
          exact Bool.noConfusion hset
        · have hr' : typeReady symrefs symbols paramtypes
              (sweepN symrefs symbols paramtypes types0.length types0) ti.payload
              = false := by simpa using hr
          rw [hr']

theorem C2_completion_characterization_witness :
    initFlagsOK [⟨.tBase 8 8, true⟩, ⟨.tEntity 9 0, false⟩] = true ∧
    (∀ t : Nat,
      completeAt (sweepN [] [] []
          ([(⟨.tBase 8 8, true⟩ : TypeInfo), ⟨.tEntity 9 0, false⟩] : List TypeInfo).length
          [⟨.tBase 8 8, true⟩, ⟨.tEntity 9 0, false⟩]) t
        = completeChar [] [] []
            (sweepN [] [] []
              ([(⟨.tBase 8 8, true⟩ : TypeInfo), ⟨.tEntity 9 0, false⟩] : List TypeInfo).length
              [⟨.tBase 8 8, true⟩, ⟨.tEntity 9 0, false⟩]) t) :=
  ⟨by decide,
    C2_completion_characterization [] [] []
      [⟨.tBase 8 8, true⟩, ⟨.tEntity 9 0, false⟩] (by decide)⟩

/-- C3: the completer's fixed-point iteration terminates.  A sweep is
monotone on the `isComplete` flags (false to true only); with `N` types,
`N` sweeps reach a fixpoint; the pass is fatal exactly when some type is
still incomplete at the fixpoint; and every complete `TYPE_REFERENCE` at the
fixpoint has `resolvedTp` caching the id of the target type (which is then
itself complete). -/
theorem C3_completer_termination (symrefs : List SymrefInfo)
    (symbols : List SymbolInfo) (paramtypes : List ParamtypeInfo)
    (types0 : List TypeInfo) (hinit : initFlagsOK types0 = true) :
    (∀ (ts : List TypeInfo) (t : Nat), completeAt ts t = true →
      completeAt (sweepTypes symrefs symbols paramtypes ts) t = true) ∧
    sweepTypes symrefs symbols paramtypes
        (sweepN symrefs symbols paramtypes types0.length types0)
      = sweepN symrefs symbols paramtypes types0.length types0 ∧
    (complete_types symrefs symbols paramtypes types0 = none ↔
      ∃ (t : Nat) (ti : TypeInfo),
        (sweepN symrefs symbols paramtypes types0.length types0)[t]? = some ti ∧
        ti.isComplete = false) ∧
    (∀ (t ref : Nat) (r : Option Nat),
      (sweepN symrefs symbols paramtypes types0.length types0)[t]?
          = some ⟨.tRef ref r, true⟩ →
      ∃ tp : Nat, refTarget symrefs symbols ref = some tp ∧ r = some tp ∧
        completeAt (sweepN symrefs symbols paramtypes types0.length types0) tp
          = true) := by
  have hinv := sweepN_inv symrefs symbols paramtypes types0.length types0
    (init_inv symrefs symbols paramtypes types0 hinit)
  refine ⟨?_, fix_reached symrefs symbols paramtypes types0, ?_, ?_⟩
  · intro ts t h
    exact sweepTypes_flag_mono symrefs symbols paramtypes ts t h
  · unfold complete_types
    by_cases hall : (sweepN symrefs symbols paramtypes types0.length types0).all
        (fun ti => ti.isComplete) = true
    · simp only [hall, if_true]
      constructor
      · intro h; exact Option.noConfusion h
      · intro ⟨t, ti, hti, hinc⟩
        rw [List.all_eq_true] at hall
        have := hall ti (mem_of_getElem_opt hti)
        simp only at this
        rw [hinc] at this
        exact Bool.noConfusion this
    · simp only [hall, if_false, Bool.false_eq_true]
      constructor
      · intro _
        have : ∃ ti ∈ sweepN symrefs symbols paramtypes types0.length types0,
            ¬ ti.isComplete = true := by
          by_contra hno
          push_neg at hno
          exact hall (List.all_eq_true.mpr (fun ti hti => hno ti hti))
        obtain ⟨ti, hmem, hninc⟩ := this
        obtain ⟨t, hlt, hget⟩ := List.mem_iff_getElem.mp hmem
        refine ⟨t, ti, ?_, by simpa using hninc⟩
        rw [List.getElem?_eq_getElem hlt, hget]
      · intro _; trivial
  · intro t ref r hF
    obtain ⟨hready, hcache⟩ := hinv t _ hF rfl
    have hr : r = refTarget symrefs symbols ref := hcache ref r rfl
    rw [typeReady] at hready
    cases htg : refTarget symrefs symbols ref with
    | none => rw [htg] at hready; simp at hready
    | some tp =>
        rw [htg] at hready
        exact ⟨tp, rfl, by rw [hr, htg], hready⟩

theorem C3_completer_termination_witness :
    initFlagsOK [⟨.tBase 8 8, true⟩] = true ∧
    (complete_types [] [] [] [⟨.tBase 8 8, true⟩] = none ↔
      ∃ (t : Nat) (ti : TypeInfo),
        (sweepN [] [] [] ([(⟨.tBase 8 8, true⟩ : TypeInfo)] : List TypeInfo).length
          [⟨.tBase 8 8, true⟩])[t]? = some ti ∧ ti.isComplete = false) :=
  ⟨by decide, (C3_completer_termination [] [] [] [⟨.tBase 8 8, true⟩] (by decide)).2.2.1⟩

/-! ## Lexer (claim C8)

The lexer body is not under `src/`; modelled from spec §4.C over the
`TokenInfo` record and `TokenKind` enum of `api.h`: skip whitespace and
nested block comments; words `[A-Za-z_][A-Za-z0-9_]*` intern into a String;
integers `[0-9]+` accumulate as signed 64-bit with overflow fatal;
double-char punctuators take precedence over their single-char prefix; an
unrecognized byte is fatal. -/

def isAlphaB (c : Nat) : Bool :=
  (65 ≤ c && c ≤ 90) || (97 ≤ c && c ≤ 122) || c == 95

def isDigitB (c : Nat) : Bool := 48 ≤ c && c ≤ 57

def isAlnumB (c : Nat) : Bool := isAlphaB c || isDigitB c

def isSpaceB (c : Nat) : Bool := c == 32 || c == 9 || c == 10 || c == 13

/-- Skip whitespace and nested block comments, tracking the byte offset and
comment depth; fatal (`none`) on an unterminated comment. -/
def skipWs : Nat → List Nat → Nat → Nat → Option (List Nat × Nat)
  | 0, _, _, _ => none
  | _ + 1, [], off, depth => if depth = 0 then some ([], off) else none
  | fuel + 1, c :: rest, off, depth + 1 =>
      if c = 42 && rest.head? == some 47 then
        skipWs fuel rest.tail (off + 2) depth
      else if c = 47 && rest.head? == some 42 then
        skipWs fuel rest.tail (off + 2) (depth + 2)
      else skipWs fuel rest (off + 1) (depth + 1)
  | fuel + 1, c :: rest, off, 0 =>
      if isSpaceB c then skipWs fuel rest (off + 1) 0
      else if c = 47 && rest.head? == some 42 then
        skipWs fuel rest.tail (off + 2) 1
      else some (c :: rest, off)

/-- Decimal value of a digit run. -/
def digitsVal (ds : List Nat) : Nat :=
  ds.foldl (fun a d => a * 10 + (d - 48)) 0

/-- The single-character punctuators (`api.h` TokenKind). -/
def toktypeOfByte (c : Nat) : Option TokenKind :=
  if c = 40 then some TOKTYPE_LEFTPAREN
  else if c = 41 then some TOKTYPE_RIGHTPAREN
  else if c = 123 then some TOKTYPE_LEFTBRACE
  else if c = 125 then some TOKTYPE_RIGHTBRACE
  else if c = 91 then some TOKTYPE_LEFTBRACKET
  else if c = 93 then some TOKTYPE_RIGHTBRACKET
  else if c = 46 then some TOKTYPE_DOT
  else if c = 45 then some TOKTYPE_MINUS
  else if c = 43 then some TOKTYPE_PLUS
  else if c = 42 then some TOKTYPE_ASTERISK
  else if c = 47 then some TOKTYPE_SLASH
  else if c = 44 then some TOKTYPE_COMMA
  else if c = 59 then some TOKTYPE_SEMICOLON
  else if c = 58 then some TOKTYPE_COLON
  else if c = 38 then some TOKTYPE_AMPERSAND
  else if c = 124 then some TOKTYPE_PIPE
  else if c = 94 then some TOKTYPE_CARET
  else if c = 126 then some TOKTYPE_TILDE
  else if c = 33 then some TOKTYPE_BANG
  else if c = 61 then some TOKTYPE_ASSIGNEQUALS
  else none

/-- Modelled from the spec (§4.C): the lexer loop.  EOF is the end of the
token list (internally the failure of `peek()`); the single source file is
file id 0. -/
def lexAll : Nat → Pool → List Nat → Nat → Option (List TokenInfo × Pool)
  | 0, _, _, _ => none
  | fuel + 1, pool, bs, off =>
      match skipWs (bs.length + 1) bs off 0 with
      | none => none
      | some ([], _) => some ([], pool)
      | some (c :: rest, off') =>
          if isAlphaB c then
            let w := (c :: rest).takeWhile isAlnumB
            let rest' := (c :: rest).dropWhile isAlnumB
            let r := intern_string pool w
            (lexAll fuel r.2 rest' (off' + w.length)).map fun out =>
              (⟨0, off', TOKTYPE_WORD, .tWord r.1⟩ :: out.1, out.2)
          else if isDigitB c then
            let ds := (c :: rest).takeWhile isDigitB
            let rest' := (c :: rest).dropWhile isDigitB
            let v := digitsVal ds
            if v < 2 ^ 63 then
              (lexAll fuel pool rest' (off' + ds.length)).map fun out =>
                (⟨0, off', TOKTYPE_INTEGER, .tInteger (v : Int)⟩ :: out.1, out.2)
            else none
          else if c = 45 && rest.head? == some 45 then
            (lexAll fuel pool rest.tail (off' + 2)).map fun out =>
              (⟨0, off', TOKTYPE_DOUBLEMINUS, .tNone⟩ :: out.1, out.2)
          else if c = 43 && rest.head? == some 43 then
            (lexAll fuel pool rest.tail (off' + 2)).map fun out =>
              (⟨0, off', TOKTYPE_DOUBLEPLUS, .tNone⟩ :: out.1, out.2)
          else if c = 61 && rest.head? == some 61 then
            (lexAll fuel pool rest.tail (off' + 2)).map fun out =>
              (⟨0, off', TOKTYPE_DOUBLEEQUALS, .tNone⟩ :: out.1, out.2)
          else
            match toktypeOfByte c with
            | some k =>
                (lexAll fuel pool rest (off' + 1)).map fun out =>
                  (⟨0, off', k, .tNone⟩ :: out.1, out.2)
            | none => none

/-- Lex a whole byte sequence. -/
def lexBytes (pool : Pool) (bs : List Nat) : Option (List TokenInfo × Pool) :=
  lexAll (bs.length + 1) pool bs 0

/-- Bytes of a Lean string literal (for concrete test inputs). -/
def strBytes (s : String) : List Nat := s.toList.map Char.toNat

theorem toktypeOfByte_kind (c : Nat) (k : TokenKind)
    (h : toktypeOfByte c = some k) :
    k ≠ TOKTYPE_WORD ∧ k ≠ TOKTYPE_INTEGER := by
  unfold toktypeOfByte at h
  by_cases e0 : c = 40
  case pos =>
    rw [if_pos e0] at h
    injection h with h2
    subst h2
    exact ⟨fun hcon => TokenKind.noConfusion hcon,
      fun hcon => TokenKind.noConfusion hcon⟩
  rw [if_neg e0] at h
  by_cases e1 : c = 41
  case pos =>
    rw [if_pos e1] at h
    injection h with h2
    subst h2
    exact ⟨fun hcon => TokenKind.noConfusion hcon,
      fun hcon => TokenKind.noConfusion hcon⟩
  rw [if_neg e1] at h
  by_cases e2 : c = 123
  case pos =>
    rw [if_pos e2] at h
    injection h with h2
    subst h2
    exact ⟨fun hcon => TokenKind.noConfusion hcon,
      fun hcon => TokenKind.noConfusion hcon⟩
  rw [if_neg e2] at h
  by_cases e3 : c = 125
  case pos =>
    rw [if_pos e3] at h
    injection h with h2
    subst h2
    exact ⟨fun hcon => TokenKind.noConfusion hcon,
      fun hcon => TokenKind.noConfusion hcon⟩
  rw [if_neg e3] at h
  by_cases e4 : c = 91
  case pos =>
    rw [if_pos e4] at h
    injection h with h2
    subst h2
    exact ⟨fun hcon => TokenKind.noConfusion hcon,
      fun hcon => TokenKind.noConfusion hcon⟩
  rw [if_neg e4] at h
  by_cases e5 : c = 93
  case pos =>
    rw [if_pos e5] at h
    injection h with h2
    subst h2
    exact ⟨fun hcon => TokenKind.noConfusion hcon,
      fun hcon => TokenKind.noConfusion hcon⟩
  rw [if_neg e5] at h
  by_cases e6 : c = 46
  case pos =>
    rw [if_pos e6] at h
    injection h with h2
    subst h2
    exact ⟨fun hcon => TokenKind.noConfusion hcon,
      fun hcon => TokenKind.noConfusion hcon⟩
  rw [if_neg e6] at h
  by_cases e7 : c = 45
  case pos =>
    rw [if_pos e7] at h
    injection h with h2
    subst h2
    exact ⟨fun hcon => TokenKind.noConfusion hcon,
      fun hcon => TokenKind.noConfusion hcon⟩
  rw [if_neg e7] at h
  by_cases e8 : c = 43
  case pos =>
    rw [if_pos e8] at h
    injection h with h2
    subst h2
    exact ⟨fun hcon => TokenKind.noConfusion hcon,
      fun hcon => TokenKind.noConfusion hcon⟩
  rw [if_neg e8] at h
  by_cases e9 : c = 42
  case pos =>
    rw [if_pos e9] at h
    injection h with h2
    subst h2
    exact ⟨fun hcon => TokenKind.noConfusion hcon,
      fun hcon => TokenKind.noConfusion hcon⟩
  rw [if_neg e9] at h
  by_cases e10 : c = 47
  case pos =>
    rw [if_pos e10] at h
    injection h with h2
    subst h2
    exact ⟨fun hcon => TokenKind.noConfusion hcon,
      fun hcon => TokenKind.noConfusion hcon⟩
  rw [if_neg e10] at h
  by_cases e11 : c = 44
  case pos =>
    rw [if_pos e11] at h
    injection h with h2
    subst h2
    exact ⟨fun hcon => TokenKind.noConfusion hcon,
      fun hcon => TokenKind.noConfusion hcon⟩
  rw [if_neg e11] at h
  by_cases e12 : c = 59
  case pos =>
    rw [if_pos e12] at h
    injection h with h2
    subst h2
    exact ⟨fun hcon => TokenKind.noConfusion hcon,
      fun hcon => TokenKind.noConfusion hcon⟩
  rw [if_neg e12] at h
  by_cases e13 : c = 58
  case pos =>
    rw [if_pos e13] at h
    injection h with h2
    subst h2
    exact ⟨fun hcon => TokenKind.noConfusion hcon,
      fun hcon => TokenKind.noConfusion hcon⟩
  rw [if_neg e13] at h
  by_cases e14 : c = 38
  case pos =>
    rw [if_pos e14] at h
    injection h with h2
    subst h2
    exact ⟨fun hcon => TokenKind.noConfusion hcon,
      fun hcon => TokenKind.noConfusion hcon⟩
  rw [if_neg e14] at h
  by_cases e15 : c = 124
  case pos =>
    rw [if_pos e15] at h
    injection h with h2
    subst h2
    exact ⟨fun hcon => TokenKind.noConfusion hcon,
      fun hcon => TokenKind.noConfusion hcon⟩
  rw [if_neg e15] at h
  by_cases e16 : c = 94
  case pos =>
    rw [if_pos e16] at h
    injection h with h2
    subst h2
    exact ⟨fun hcon => TokenKind.noConfusion hcon,
      fun hcon => TokenKind.noConfusion hcon⟩
  rw [if_neg e16] at h
  by_cases e17 : c = 126
  case pos =>
    rw [if_pos e17] at h
    injection h with h2
    subst h2
    exact ⟨fun hcon => TokenKind.noConfusion hcon,
      fun hcon => TokenKind.noConfusion hcon⟩
  rw [if_neg e17] at h
  by_cases e18 : c = 33
  case pos =>
    rw [if_pos e18] at h
    injection h with h2
    subst h2
    exact ⟨fun hcon => TokenKind.noConfusion hcon,
      fun hcon => TokenKind.noConfusion hcon⟩
  rw [if_neg e18] at h
  by_cases e19 : c = 61
  case pos =>
    rw [if_pos e19] at h
    injection h with h2
    subst h2
    exact ⟨fun hcon => TokenKind.noConfusion hcon,
      fun hcon => TokenKind.noConfusion hcon⟩
  rw [if_neg e19] at h
  exact Option.noConfusion h

/-- The kind-dependent payload discipline of claim C8, relative to the final
pool: a word token carries an interned identifier `String` (a valid id of
the pool), an integer token carries a signed 64-bit value, and every other
(punctuator) kind carries no payload.  No `TokenKind` is a string literal
(`api.h` enumerates none), so no token carries the `tString` payload. -/
def tokenPayloadOK (p : Pool) (tok : TokenInfo) : Prop :=
  match tok.kind, tok.payload with
  | TOKTYPE_WORD, .tWord s => s < p.stringCnt
  | TOKTYPE_WORD, _ => False
  | TOKTYPE_INTEGER, .tInteger v => 0 ≤ v ∧ v < 2 ^ 63
  | TOKTYPE_INTEGER, _ => False
  | _, payload => payload = .tNone

/-- C8: every token produced by the lexer has a kind from the enumerated
lexical classes (`TokenKind` by construction) and the kind-dependent payload
of the claim; the pool only grows and stays well-formed. -/
theorem C8_lexer_tokens :
    ∀ (fuel : Nat) (pool : Pool) (bs : List Nat) (off : Nat)
      (toks : List TokenInfo) (p' : Pool), PoolWF pool →
      lexAll fuel pool bs off = some (toks, p') →
      PoolWF p' ∧ pool.stringCnt ≤ p'.stringCnt ∧
        ∀ tok ∈ toks, tokenPayloadOK p' tok := by
  intro fuel
  induction fuel with
  | zero =>
      intro pool bs off toks p' hWF h
      exact absurd h (by simp [lexAll])
  | succ fuel ih =>
      intro pool bs off toks p' hWF h
      rw [lexAll] at h
      cases hskip : skipWs (bs.length + 1) bs off 0 with
      | none => rw [hskip] at h; exact Option.noConfusion h
      | some pr =>
          rw [hskip] at h
          obtain ⟨l, o⟩ := pr
          cases l with
          | nil =>
              simp only at h
              injection h with h
              injection h with h1 h2
              subst h1
              subst h2
              exact ⟨hWF, le_refl _, by simp⟩
          | cons c rest =>
              simp only at h
              by_cases ha : isAlphaB c = true
              · rw [if_pos ha] at h
                rw [Option.map_eq_some'] at h
                obtain ⟨out, hrec, hout⟩ := h
                obtain ⟨hsp1, hsp2, hsp3, -, -, -⟩ :=
                  intern_spec pool ((c :: rest).takeWhile isAlnumB) hWF
                obtain ⟨hWF', hle', hok'⟩ := ih _ _ _ out.1 out.2 hsp1 (by
                  rw [hrec])
                injection hout with h1 h2
                subst h2
                subst h1
                refine ⟨hWF', le_trans ?_ hle', ?_⟩
                · exact (intern_spec pool ((c :: rest).takeWhile isAlnumB) hWF).2.2.2.1
                · intro tok htok
                  rcases List.mem_cons.mp htok with rfl | ht
                  · show (intern_string pool ((c :: rest).takeWhile isAlnumB)).1
                        < out.2.stringCnt
                    omega
                  · exact hok' tok ht
              · rw [if_neg ha] at h
                by_cases hd : isDigitB c = true
                · rw [if_pos hd] at h
                  by_cases hv : digitsVal ((c :: rest).takeWhile isDigitB) < 2 ^ 63
                  · rw [if_pos hv] at h
                    rw [Option.map_eq_some'] at h
                    obtain ⟨out, hrec, hout⟩ := h
                    obtain ⟨hWF', hle', hok'⟩ := ih _ _ _ out.1 out.2 hWF (by rw [hrec])
                    injection hout with h1 h2
                    subst h2
                    subst h1
                    refine ⟨hWF', hle', ?_⟩
                    intro tok htok
                    rcases List.mem_cons.mp htok with rfl | ht
                    · show (0 : Int) ≤ (digitsVal ((c :: rest).takeWhile isDigitB) : Int)
                          ∧ (digitsVal ((c :: rest).takeWhile isDigitB) : Int) < 2 ^ 63
                      constructor
                      · exact Int.natCast_nonneg _
                      · exact_mod_cast hv
                    · exact hok' tok ht
                  · rw [if_neg hv] at h
                    exact Option.noConfusion h
                · rw [if_neg hd] at h
                  by_cases h45 : (c = 45 && rest.head? == some 45) = true
                  · rw [if_pos h45, Option.map_eq_some'] at h
                    obtain ⟨out, hrec, hout⟩ := h
                    obtain ⟨hWF', hle', hok'⟩ := ih _ _ _ out.1 out.2 hWF (by rw [hrec])
                    injection hout with h1 h2
                    subst h2
                    subst h1
                    refine ⟨hWF', hle', ?_⟩
                    intro tok htok
                    rcases List.mem_cons.mp htok with rfl | ht
                    · exact rfl
                    · exact hok' tok ht
                  · rw [if_neg h45] at h
                    by_cases h43 : (c = 43 && rest.head? == some 43) = true
                    · rw [if_pos h43, Option.map_eq_some'] at h
                      obtain ⟨out, hrec, hout⟩ := h
                      obtain ⟨hWF', hle', hok'⟩ := ih _ _ _ out.1 out.2 hWF (by rw [hrec])
                      injection hout with h1 h2
                      subst h2
                      subst h1
                      refine ⟨hWF', hle', ?_⟩
                      intro tok htok
                      rcases List.mem_cons.mp htok with rfl | ht
                      · exact rfl
                      · exact hok' tok ht
                    · rw [if_neg h43] at h
                      by_cases h61 : (c = 61 && rest.head? == some 61) = true
                      · rw [if_pos h61, Option.map_eq_some'] at h
                        obtain ⟨out, hrec, hout⟩ := h
                        obtain ⟨hWF', hle', hok'⟩ := ih _ _ _ out.1 out.2 hWF (by rw [hrec])
                        injection hout with h1 h2
                        subst h2
                        subst h1
                        refine ⟨hWF', hle', ?_⟩
                        intro tok htok
                        rcases List.mem_cons.mp htok with rfl | ht
                        · exact rfl
                        · exact hok' tok ht
                      · rw [if_neg h61] at h
                        cases hk : toktypeOfByte c with
                        | none => rw [hk] at h; exact Option.noConfusion h
                        | some k =>
                            rw [hk, Option.map_eq_some'] at h
                            obtain ⟨out, hrec, hout⟩ := h
                            obtain ⟨hWF', hle', hok'⟩ :=
                              ih _ _ _ out.1 out.2 hWF (by rw [hrec])
                            injection hout with h1 h2
                            subst h2
                            subst h1
                            refine ⟨hWF', hle', ?_⟩
                            intro tok htok
                            rcases List.mem_cons.mp htok with rfl | ht
                            · have hnw := toktypeOfByte_kind c k hk
                              show tokenPayloadOK out.2 ⟨0, o, k, .tNone⟩
                              cases k <;>
                                first
                                  | exact absurd rfl hnw.1
                                  | exact absurd rfl hnw.2
                                  | rfl
                            · exact hok' tok ht

theorem C8_lexer_tokens_witness :
    PoolWF Pool.empty ∧
    (lexBytes Pool.empty (strBytes "ab 12 +")).isSome = true ∧
    (∀ out : List TokenInfo × Pool,
      lexBytes Pool.empty (strBytes "ab 12 +") = some out →
      ∀ tok ∈ out.1, tokenPayloadOK out.2 tok) :=
  ⟨poolWF_empty, by decide,
    fun out h tok ht =>
      (C8_lexer_tokens ((strBytes "ab 12 +").length + 1) Pool.empty
        (strBytes "ab 12 +") 0 out.1 out.2 poolWF_empty h).2.2 tok ht⟩

/-! ## Parser (claims C4, C5, C7, C9)

The parser body is not under `src/`; modelled from spec §4.D.  The
single-pass recursive-descent parser of the source is modelled in two
layers: a syntax layer from tokens to parse trees (this section), and an
arena-building layer that performs, in the same order, the IR actions the
source parser interleaves with parsing (next section). -/

/-- Parse-tree of a type syntactic form (§4.D Types): a symref to a named
type, `*`-pointer to a named type (`ReftypeInfo` wraps a `Symref`, so the
pointee is a name), `[idx]value` array, or `proc(params) ret`. -/
inductive PType
  | named (name : Nat)
  | ptr (name : Nat)
  | arr (idxtp : PType) (valuetp : PType)
  | procT (params : List PType) (rettp : PType)

/-- Expression parse tree (§3 Expr). -/
inductive PExpr
  | lit (value : Int)
  | sym (name : Nat)
  | unop (kind : UnopKind) (e : PExpr)
  | binop (kind : BinopKind) (e1 : PExpr) (e2 : PExpr)
  | member (e : PExpr) (name : Nat)
  | subscript (e1 : PExpr) (e2 : PExpr)
  | call (callee : PExpr) (args : List PExpr)

/-- Statement parse tree (§3 Stmt, §4.D Statements). -/
inductive PStmt
  | exprS (e : PExpr)
  | returnS (e : Option PExpr)
  | compound (body : List PStmt)
  | ifS (cond : PExpr) (body : PStmt)
  | whileS (cond : PExpr) (body : PStmt)
  | forS (init : PExpr) (cond : PExpr) (step : PExpr) (body : PStmt)
  | dataS (name : Nat) (tp : PType)
  | arrayS (name : Nat) (idxtp : PType) (valuetp : PType)

/-- Top-level declaration parse tree (§4.D Declarations). -/
inductive PDecl
  | dataD (name : Nat) (tp : PType)
  | arrayD (name : Nat) (idxtp : PType) (valuetp : PType)
  | entityD (name : Nat) (tp : PType)
  | procD (name : Nat) (params : List (PType × Nat)) (rettp : PType)
      (body : List PStmt)

/-- Modelled from the spec: the static `toktypeToBinop` table (declared in
`api.h`, values not in `src/`).  Precedences follow the table of §4.D,
higher binds tighter: assignment 1, equality 2, additive 3, multiplicative
4, bitwise 5. -/
def toktypeToBinop (t : TokenKind) : Option (BinopKind × Nat) :=
  match t with
  | TOKTYPE_ASSIGNEQUALS => some (BINOP_ASSIGN, 1)
  | TOKTYPE_DOUBLEEQUALS => some (BINOP_EQUALS, 2)
  | TOKTYPE_MINUS => some (BINOP_MINUS, 3)
  | TOKTYPE_PLUS => some (BINOP_PLUS, 3)
  | TOKTYPE_ASTERISK => some (BINOP_MUL, 4)
  | TOKTYPE_SLASH => some (BINOP_DIV, 4)
  | TOKTYPE_AMPERSAND => some (BINOP_BITAND, 5)
  | TOKTYPE_PIPE => some (BINOP_BITOR, 5)
  | TOKTYPE_CARET => some (BINOP_BITXOR, 5)
  | _ => none

/-- Modelled from the spec: the static `toktypeToPrefixUnop` table. -/
def toktypeToPreUnop (t : TokenKind) : Option UnopKind :=
  match t with
  | TOKTYPE_TILDE => some UNOP_INVERTBITS
  | TOKTYPE_BANG => some UNOP_NOT
  | TOKTYPE_AMPERSAND => some UNOP_ADDRESSOF
  | TOKTYPE_ASTERISK => some UNOP_DEREF
  | TOKTYPE_MINUS => some UNOP_NEGATIVE
  | TOKTYPE_PLUS => some UNOP_POSITIVE
  | TOKTYPE_DOUBLEMINUS => some UNOP_PREDECREMENT
  | TOKTYPE_DOUBLEPLUS => some UNOP_PREINCREMENT
  | _ => none

/-- Modelled from the spec: the static `toktypeToPostfixUnop` table. -/
def toktypeToPostUnop (t : TokenKind) : Option UnopKind :=
  match t with
  | TOKTYPE_DOUBLEMINUS => some UNOP_POSTDECREMENT
  | TOKTYPE_DOUBLEPLUS => some UNOP_POSTINCREMENT
  | _ => none

def expectTok (k : TokenKind) : List TokenInfo → Option (List TokenInfo)
  | t :: rest => if t.kind = k then some rest else none
  | [] => none

def expectWord : List TokenInfo → Option (Nat × List TokenInfo)
  | t :: rest =>
      match t.kind, t.payload with
      | TOKTYPE_WORD, .tWord s => some (s, rest)
      | _, _ => none
  | [] => none

/-- Parser requests: the mutually recursive entry points of the source's
recursive-descent parser, defunctionalized so one fuel-indexed function
covers them (this keeps the definition structurally recursive). -/
inductive PReq
  | exprR (minPrec : Nat) (ts : List TokenInfo)
  | climbR (minPrec : Nat) (lhs : PExpr) (ts : List TokenInfo)
  | unopR (ts : List TokenInfo)
  | primR (ts : List TokenInfo)
  | postR (e : PExpr) (ts : List TokenInfo)
  | argsR (ts : List TokenInfo)
  | typeR (ts : List TokenInfo)
  | typeListR (ts : List TokenInfo)
  | stmtR (ts : List TokenInfo)
  | stmtsR (ts : List TokenInfo)
  | paramsR (ts : List TokenInfo)

/-- Parser results, one variant per request family. -/
inductive PRes
  | exprO (e : PExpr) (ts : List TokenInfo)
  | argsO (args : List PExpr) (ts : List TokenInfo)
  | typeO (tp : PType) (ts : List TokenInfo)
  | typeListO (tps : List PType) (ts : List TokenInfo)
  | stmtO (s : PStmt) (ts : List TokenInfo)
  | stmtsO (ss : List PStmt) (ts : List TokenInfo)
  | paramsO (ps : List (PType × Nat)) (ts : List TokenInfo)

/-- Modelled from the spec (§4.D): the recursive-descent parser.
`exprR`/`climbR` implement the precedence climber: parse a prefix-unop
chain, then while the next token is a binop of precedence at least the
caller's minimum, consume it, parse the right operand with minimum
`prec + 1` (left-associative) and fold into a `binop`.  `unopR`, `primR`,
`postR`, `argsR` are the prefix chain, primaries, postfix chain
(call/subscript/member/postfix unops) and call arguments.  `typeR` parses
a type form (named, `*`-pointer, array, proctype), `stmtR`/`stmtsR` the
statements of §4.D, `paramsR` a `TYPE NAME` parameter list. -/
def parseStep : Nat → PReq → Option PRes
  | 0, _ => none
  | fuel + 1, req =>
      match req with
      | .exprR minPrec ts =>
          match parseStep fuel (.unopR ts) with
          | some (.exprO lhs ts1) => parseStep fuel (.climbR minPrec lhs ts1)
          | _ => none
      | .climbR minPrec lhs ts =>
          match ts with
          | [] => some (.exprO lhs ts)
          | t :: rest =>
              match toktypeToBinop t.kind with
              | none => some (.exprO lhs ts)
              | some (op, prec) =>
                  if minPrec ≤ prec then
                    match parseStep fuel (.exprR (prec + 1) rest) with
                    | some (.exprO rhs ts2) =>
                        parseStep fuel (.climbR minPrec (.binop op lhs rhs) ts2)
                    | _ => none
                  else some (.exprO lhs ts)
      | .unopR ts =>
          match ts with
          | [] => none
          | t :: rest =>
              match toktypeToPreUnop t.kind with
              | some op =>
                  match parseStep fuel (.unopR rest) with
                  | some (.exprO e ts1) => some (.exprO (.unop op e) ts1)
                  | _ => none
              | none =>
                  match parseStep fuel (.primR ts) with
                  | some (.exprO prim ts1) => parseStep fuel (.postR prim ts1)
                  | _ => none
      | .primR ts =>
          match ts with
          | [] => none
          | t :: rest =>
              match t.kind, t.payload with
              | TOKTYPE_INTEGER, .tInteger v => some (.exprO (.lit v) rest)
              | TOKTYPE_WORD, .tWord s => some (.exprO (.sym s) rest)
              | TOKTYPE_LEFTPAREN, _ =>
                  match parseStep fuel (.exprR 1 rest) with
                  | some (.exprO e ts1) =>
                      match expectTok TOKTYPE_RIGHTPAREN ts1 with
                      | some ts2 => some (.exprO e ts2)
                      | none => none
                  | _ => none
              | _, _ => none
      | .postR e ts =>
          match ts with
          | [] => some (.exprO e ts)
          | t :: rest =>
              if t.kind = TOKTYPE_LEFTPAREN then
                match rest with
                | t2 :: rest2 =>
                    if t2.kind = TOKTYPE_RIGHTPAREN then
                      parseStep fuel (.postR (.call e []) rest2)
                    else
                      match parseStep fuel (.argsR rest) with
                      | some (.argsO args ts1) =>
                          parseStep fuel (.postR (.call e args) ts1)
                      | _ => none
                | [] => none
              else if t.kind = TOKTYPE_LEFTBRACKET then
                match parseStep fuel (.exprR 1 rest) with
                | some (.exprO ix ts1) =>
                    match expectTok TOKTYPE_RIGHTBRACKET ts1 with
                    | some ts2 => parseStep fuel (.postR (.subscript e ix) ts2)
                    | none => none
                | _ => none
              else if t.kind = TOKTYPE_DOT then
                match expectWord rest with
                | some (s, ts1) => parseStep fuel (.postR (.member e s) ts1)
                | none => none
              else
                match toktypeToPostUnop t.kind with
                | some op => parseStep fuel (.postR (.unop op e) rest)
                | none => some (.exprO e ts)
      | .argsR ts =>
          match parseStep fuel (.exprR 1 ts) with
          | some (.exprO e ts1) =>
              match ts1 with
              | t :: rest =>
                  if t.kind = TOKTYPE_COMMA then
                    match parseStep fuel (.argsR rest) with
                    | some (.argsO more ts2) => some (.argsO (e :: more) ts2)
                    | _ => none
                  else if t.kind = TOKTYPE_RIGHTPAREN then some (.argsO [e] rest)
                  else none
              | [] => none
          | _ => none
      | .typeR ts =>
          match ts with
          | [] => none
          | t :: rest =>
              match t.kind, t.payload with
              | TOKTYPE_ASTERISK, _ =>
                  match expectWord rest with
                  | some (s, ts1) => some (.typeO (.ptr s) ts1)
                  | none => none
              | TOKTYPE_LEFTBRACKET, _ =>
                  match parseStep fuel (.typeR rest) with
                  | some (.typeO idxtp ts1) =>
                      match expectTok TOKTYPE_RIGHTBRACKET ts1 with
                      | some ts2 =>
                          match parseStep fuel (.typeR ts2) with
                          | some (.typeO valuetp ts3) =>
                              some (.typeO (.arr idxtp valuetp) ts3)
                          | _ => none
                      | none => none
                  | _ => none
              | TOKTYPE_WORD, .tWord s =>
                  if s = CONSTSTR_PROC then
                    match expectTok TOKTYPE_LEFTPAREN rest with
                    | some ts1 =>
                        match parseStep fuel (.typeListR ts1) with
                        | some (.typeListO params ts2) =>
                            match parseStep fuel (.typeR ts2) with
                            | some (.typeO rettp ts3) =>
                                some (.typeO (.procT params rettp) ts3)
                            | _ => none
                        | _ => none
                    | none => none
                  else some (.typeO (.named s) rest)
              | _, _ => none
      | .typeListR ts =>
          match ts with
          | [] => none
          | t :: _ =>
              if t.kind = TOKTYPE_RIGHTPAREN then some (.typeListO [] ts.tail)
              else
                match parseStep fuel (.typeR ts) with
                | some (.typeO tp ts1) =>
                    match ts1 with
                    | t2 :: rest2 =>
                        if t2.kind = TOKTYPE_COMMA then
                          match parseStep fuel (.typeListR rest2) with
                          | some (.typeListO more ts2) =>
                              some (.typeListO (tp :: more) ts2)
                          | _ => none
                        else if t2.kind = TOKTYPE_RIGHTPAREN then
                          some (.typeListO [tp] rest2)
                        else none
                    | [] => none
                | _ => none
      | .stmtR ts =>
          match ts with
          | [] => none
          | t :: rest =>
              match t.kind, t.payload with
              | TOKTYPE_LEFTBRACE, _ =>
                  match parseStep fuel (.stmtsR rest) with
                  | some (.stmtsO body ts1) => some (.stmtO (.compound body) ts1)
                  | _ => none
              | TOKTYPE_WORD, .tWord s =>
                  if s = CONSTSTR_IF then
                    match expectTok TOKTYPE_LEFTPAREN rest with
                    | some ts1 =>
                        match parseStep fuel (.exprR 1 ts1) with
                        | some (.exprO cond ts2) =>
                            match expectTok TOKTYPE_RIGHTPAREN ts2 with
                            | some ts3 =>
                                match parseStep fuel (.stmtR ts3) with
                                | some (.stmtO body ts4) =>
                                    some (.stmtO (.ifS cond body) ts4)
                                | _ => none
                            | none => none
                        | _ => none
                    | none => none
                  else if s = CONSTSTR_WHILE then
                    match expectTok TOKTYPE_LEFTPAREN rest with
                    | some ts1 =>
                        match parseStep fuel (.exprR 1 ts1) with
                        | some (.exprO cond ts2) =>
                            match expectTok TOKTYPE_RIGHTPAREN ts2 with
                            | some ts3 =>
                                match parseStep fuel (.stmtR ts3) with
                                | some (.stmtO body ts4) =>
                                    some (.stmtO (.whileS cond body) ts4)
                                | _ => none
                            | none => none
                        | _ => none
                    | none => none
                  else if s = CONSTSTR_FOR then
                    match expectTok TOKTYPE_LEFTPAREN rest with
                    | some ts1 =>
                        match parseStep fuel (.exprR 1 ts1) with
                        | some (.exprO ini ts2) =>
                            match expectTok TOKTYPE_SEMICOLON ts2 with
                            | some ts3 =>
                                match parseStep fuel (.exprR 1 ts3) with
                                | some (.exprO cond ts4) =>
                                    match expectTok TOKTYPE_SEMICOLON ts4 with
                                    | some ts5 =>
                                        match parseStep fuel (.exprR 1 ts5) with
                                        | some (.exprO step ts6) =>
                                            match expectTok TOKTYPE_RIGHTPAREN ts6 with
                                            | some ts7 =>
                                                match parseStep fuel (.stmtR ts7) with
                                                | some (.stmtO body ts8) =>
                                                    some (.stmtO
                                                      (.forS ini cond step body) ts8)
                                                | _ => none
                                            | none => none
                                        | _ => none
                                    | none => none
                                | _ => none
                            | none => none
                        | _ => none
                    | none => none
                  else if s = CONSTSTR_RETURN then
                    match rest with
                    | t2 :: rest2 =>
                        if t2.kind = TOKTYPE_SEMICOLON then
                          some (.stmtO (.returnS none) rest2)
                        else
                          match parseStep fuel (.exprR 1 rest) with
                          | some (.exprO e ts1) =>
                              match expectTok TOKTYPE_SEMICOLON ts1 with
                              | some ts2 => some (.stmtO (.returnS (some e)) ts2)
                              | none => none
                          | _ => none
                    | [] => none
                  else if s = CONSTSTR_DATA then
                    match expectWord rest with
                    | some (name, ts1) =>
                        match parseStep fuel (.typeR ts1) with
                        | some (.typeO tp ts2) =>
                            match expectTok TOKTYPE_SEMICOLON ts2 with
                            | some ts3 => some (.stmtO (.dataS name tp) ts3)
                            | none => none
                        | _ => none
                    | none => none
                  else if s = CONSTSTR_ARRAY then
                    match expectWord rest with
                    | some (name, ts1) =>
                        match expectTok TOKTYPE_LEFTBRACKET ts1 with
                        | some ts2 =>
                            match parseStep fuel (.typeR ts2) with
                            | some (.typeO idxtp ts3) =>
                                match expectTok TOKTYPE_RIGHTBRACKET ts3 with
                                | some ts4 =>
                                    match parseStep fuel (.typeR ts4) with
                                    | some (.typeO valuetp ts5) =>
                                        match expectTok TOKTYPE_SEMICOLON ts5 with
                                        | some ts6 =>
                                            some (.stmtO
                                              (.arrayS name idxtp valuetp) ts6)
                                        | none => none
                                    | _ => none
                                | none => none
                            | _ => none
                        | none => none
                    | none => none
                  else
                    match parseStep fuel (.exprR 1 ts) with
                    | some (.exprO e ts1) =>
                        match expectTok TOKTYPE_SEMICOLON ts1 with
                        | some ts2 => some (.stmtO (.exprS e) ts2)
                        | none => none
                    | _ => none
              | _, _ =>
                  match parseStep fuel (.exprR 1 ts) with
                  | some (.exprO e ts1) =>
                      match expectTok TOKTYPE_SEMICOLON ts1 with
                      | some ts2 => some (.stmtO (.exprS e) ts2)
                      | none => none
                  | _ => none
      | .stmtsR ts =>
          match ts with
          | [] => none
          | t :: _ =>
              if t.kind = TOKTYPE_RIGHTBRACE then some (.stmtsO [] ts.tail)
              else
                match parseStep fuel (.stmtR ts) with
                | some (.stmtO s1 ts1) =>
                    match parseStep fuel (.stmtsR ts1) with
                    | some (.stmtsO more ts2) => some (.stmtsO (s1 :: more) ts2)
                    | _ => none
                | _ => none
      | .paramsR ts =>
          match ts with
          | [] => none
          | t :: _ =>
              if t.kind = TOKTYPE_RIGHTPAREN then some (.paramsO [] ts.tail)
              else
                match parseStep fuel (.typeR ts) with
                | some (.typeO tp ts1) =>
                    match expectWord ts1 with
                    | some (name, ts2) =>
                        match ts2 with
                        | t2 :: rest2 =>
                            if t2.kind = TOKTYPE_COMMA then
                              match parseStep fuel (.paramsR rest2) with
                              | some (.paramsO more ts3) =>
                                  some (.paramsO ((tp, name) :: more) ts3)
                              | _ => none
                            else if t2.kind = TOKTYPE_RIGHTPAREN then
                              some (.paramsO [(tp, name)] rest2)
                            else none
                        | [] => none
                    | none => none
                | _ => none

/-- The precedence climber's entry point, starting at the lowest
precedence. -/
def parseExprMin (fuel : Nat) (minPrec : Nat) (ts : List TokenInfo) :
    Option (PExpr × List TokenInfo) :=
  match parseStep fuel (.exprR minPrec ts) with
  | some (.exprO e ts1) => some (e, ts1)
  | _ => none

def parseType (fuel : Nat) (ts : List TokenInfo) : Option (PType × List TokenInfo) :=
  match parseStep fuel (.typeR ts) with
  | some (.typeO tp ts1) => some (tp, ts1)
  | _ => none

def parseStmts (fuel : Nat) (ts : List TokenInfo) :
    Option (List PStmt × List TokenInfo) :=
  match parseStep fuel (.stmtsR ts) with
  | some (.stmtsO ss ts1) => some (ss, ts1)
  | _ => none

def parseParams (fuel : Nat) (ts : List TokenInfo) :
    Option (List (PType × Nat) × List TokenInfo) :=
  match parseStep fuel (.paramsR ts) with
  | some (.paramsO ps ts1) => some (ps, ts1)
  | _ => none

/-- Modelled from the spec (§4.D Declarations): `data NAME TYPE ;`,
`array NAME [IDXTYPE] VALTYPE ;`, `entity NAME \x7b TYPE ; \x7d`,
`proc NAME ( params ) RETTYPE \x7b body \x7d`. -/
def parseDecl (fuel : Nat) (ts : List TokenInfo) : Option (PDecl × List TokenInfo) := do
  let (s, rest) ← expectWord ts
  if s = CONSTSTR_DATA then do
    let (name, ts1) ← expectWord rest
    let (tp, ts2) ← parseType fuel ts1
    let ts3 ← expectTok TOKTYPE_SEMICOLON ts2
    some (.dataD name tp, ts3)
  else if s = CONSTSTR_ARRAY then do
    let (name, ts1) ← expectWord rest
    let ts2 ← expectTok TOKTYPE_LEFTBRACKET ts1
    let (idxtp, ts3) ← parseType fuel ts2
    let ts4 ← expectTok TOKTYPE_RIGHTBRACKET ts3
    let (valuetp, ts5) ← parseType fuel ts4
    let ts6 ← expectTok TOKTYPE_SEMICOLON ts5
    some (.arrayD name idxtp valuetp, ts6)
  else if s = CONSTSTR_ENTITY then do
    let (name, ts1) ← expectWord rest
    let ts2 ← expectTok TOKTYPE_LEFTBRACE ts1
    let (tp, ts3) ← parseType fuel ts2
    let ts4 ← expectTok TOKTYPE_SEMICOLON ts3
    let ts5 ← expectTok TOKTYPE_RIGHTBRACE ts4
    some (.entityD name tp, ts5)
  else if s = CONSTSTR_PROC then do
    let (name, ts1) ← expectWord rest
    let ts2 ← expectTok TOKTYPE_LEFTPAREN ts1
    let (params, ts3) ← parseParams fuel ts2
    let (rettp, ts4) ← parseType fuel ts3
    let ts5 ← expectTok TOKTYPE_LEFTBRACE ts4
    let (body, ts6) ← parseStmts fuel ts5
    some (.procD name params rettp body, ts6)
  else none

/-- Modelled from the spec (§4.D Top level): a stream of declarations until
EOF. -/
def parseProgram : Nat → List TokenInfo → Option (List PDecl)
  | 0, _ => none
  | fuel + 1, ts =>
      match ts with
      | [] => some []
      | _ => do
          let (d, ts1) ← parseDecl fuel ts
          let (more) ← parseProgram fuel ts1
          some (d :: more)

/-- Fuel that amply covers any token list for the parsers above. -/
def parseFuel (ts : List TokenInfo) : Nat := 16 * (ts.length + 1)

/-- Lex and parse an expression standing alone (for the C5 parse-shape
facts); ids are interned into an initially empty pool in order of first
occurrence. -/
def parseExprBytes (src : List Nat) : Option PExpr :=
  match lexBytes Pool.empty src with
  | some (toks, _) =>
      match parseExprMin (parseFuel toks) 1 toks with
      | some (e, []) => some e
      | _ => none
  | none => none

/-! ## Claim C5 -/

/-- C5: the expression parser respects the static precedence table and is
left-associative via the climb-by-plus-one rule.  `a + b * c` parses as
`binop(+, a, binop(*, b, c))`; `a = b = c` parses left-associatively as
`binop(=, binop(=, a, b), c)`; and `a.b[c](d)` parses as
`call(subscript(member(symref(a), "b"), symref(c)), [symref(d)])`.  String
ids 0..3 are the identifiers `a`..`d` in order of first interning (the final
conjunct pins their byte content). -/
theorem C5_precedence_climbing :
    parseExprBytes (strBytes "a + b * c")
        = some (.binop BINOP_PLUS (.sym 0) (.binop BINOP_MUL (.sym 1) (.sym 2))) ∧
    parseExprBytes (strBytes "a = b = c")
        = some (.binop BINOP_ASSIGN (.binop BINOP_ASSIGN (.sym 0) (.sym 1)) (.sym 2)) ∧
    parseExprBytes (strBytes "a.b[c](d)")
        = some (.call (.subscript (.member (.sym 0) 1) (.sym 2)) [.sym 3]) ∧
    (∀ out : List TokenInfo × Pool,
      lexBytes Pool.empty (strBytes "a.b[c](d)") = some out →
      out.2.contentOf 0 = strBytes "a" ∧ out.2.contentOf 1 = strBytes "b" ∧
      out.2.contentOf 2 = strBytes "c" ∧ out.2.contentOf 3 = strBytes "d") := by
  refine ⟨by rfl, by rfl, by rfl, ?_⟩
  intro out h
  rw [show lexBytes Pool.empty (strBytes "a.b[c](d)")
      = some ((lexBytes Pool.empty (strBytes "a.b[c](d)")).getD ([], Pool.empty)
        ) from by rfl] at h
  injection h with h
  subst h
  refine ⟨by rfl, by rfl, by rfl, by rfl⟩

/-! ## Arena building (the parser's IR actions)

Modelled from the spec (§3, §4.D): the source parser appends IR records to
the global arenas while parsing.  The arenas and the scope stack of `api.h`
(`scopeInfo`, `symbolInfo`, `symrefInfo`, `typeInfo`, ..., `scopeStack`,
capacity 16) are bundled in one state record.  Expression and statement
arena records (`ExprInfo`/`StmtInfo`) are not built — no claim refers to
them — but the symrefs inside expressions are, since the resolver and
completer read them. -/

structure IRState where
  scopeInfo : List ScopeInfo
  symbolInfo : List SymbolInfo
  symrefInfo : List SymrefInfo
  typeInfo : List TypeInfo
  paramtypeInfo : List ParamtypeInfo
  dataInfo : List DataInfo
  arrayInfo : List ArrayInfo
  procInfo : List ProcInfo
  paramInfo : List ParamInfo
  scopeStack : List Nat
  maxScopeDepth : Nat
deriving Repr, DecidableEq

/-- The scope on top of the scope stack. -/
def IRState.currentScope (st : IRState) : Nat := st.scopeStack.headD 0

/-- Append a symbol, counting it in its owning scope's `numSymbols`. -/
def appendSymbol (st : IRState) (sym : SymbolInfo) : IRState :=
  { st with
    symbolInfo := st.symbolInfo ++ [sym],
    scopeInfo :=
      match st.scopeInfo[sym.scope]? with
      | some sc => st.scopeInfo.set sym.scope { sc with numSymbols := sc.numSymbols + 1 }
      | none => st.scopeInfo }

/-- Open a new scope whose parent is the current scope (§4.D scope
discipline); records the high-water mark of the stack depth. -/
def pushScope (st : IRState) (kind : ScopeKind) (proc : Option Nat) : Nat × IRState :=
  let scId := st.scopeInfo.length
  let stack := scId :: st.scopeStack
  (scId,
    { st with
      scopeInfo := st.scopeInfo
        ++ [⟨some st.currentScope, st.symbolInfo.length, 0, kind, proc⟩],
      scopeStack := stack,
      maxScopeDepth := max st.maxScopeDepth stack.length })

/-- Close the current scope. -/
def popScope (st : IRState) : IRState := { st with scopeStack := st.scopeStack.tail }

/-- Build the types of a type-form list, left to right, returning their
arena ids.  A named use and a `*`-pointer both become a `TYPE_REFERENCE`
wrapping a fresh `Symref` (the `api.h` data model has no separate pointer
kind: `ReftypeInfo` holds just the symref and the `resolvedTp` cache). -/
def buildTypeList : Nat → Nat → List PType → IRState → Option (List Nat × IRState)
  | 0, _, _, _ => none
  | _ + 1, _, [], st => some ([], st)
  | fuel + 1, scope, tp :: rest, st =>
      match tp with
      | .named n =>
          let refId := st.symrefInfo.length
          let st1 := { st with symrefInfo := st.symrefInfo ++ [(⟨n, scope, 0, none⟩ : SymrefInfo)] }
          let tpId := st1.typeInfo.length
          let st2 := { st1 with typeInfo := st1.typeInfo ++ [⟨.tRef refId none, false⟩] }
          match buildTypeList fuel scope rest st2 with
          | some (ids, st3) => some (tpId :: ids, st3)
          | none => none
      | .ptr n =>
          let refId := st.symrefInfo.length
          let st1 := { st with symrefInfo := st.symrefInfo ++ [(⟨n, scope, 0, none⟩ : SymrefInfo)] }
          let tpId := st1.typeInfo.length
          let st2 := { st1 with typeInfo := st1.typeInfo ++ [⟨.tRef refId none, false⟩] }
          match buildTypeList fuel scope rest st2 with
          | some (ids, st3) => some (tpId :: ids, st3)
          | none => none
      | .arr idxtp valuetp =>
          match buildTypeList fuel scope [idxtp, valuetp] st with
          | some ([ti, tv], st2) =>
              let tpId := st2.typeInfo.length
              let st3 := { st2 with typeInfo := st2.typeInfo ++ [⟨.tArray ti tv, false⟩] }
              match buildTypeList fuel scope rest st3 with
              | some (ids, st4) => some (tpId :: ids, st4)
              | none => none
          | _ => none
      | .procT ps rettp =>
          match buildTypeList fuel scope ps st with
          | some (ptids, st1) =>
              match buildTypeList fuel scope [rettp] st1 with
              | some ([rt], st2) =>
                  let firstPt := st2.paramtypeInfo.length
                  let tpId := st2.typeInfo.length
                  let st3 :=
                    { st2 with
                      paramtypeInfo := st2.paramtypeInfo
                        ++ (ptids.enum.map fun pr => (⟨tpId, pr.2, pr.1⟩ : ParamtypeInfo)),
                      typeInfo := st2.typeInfo
                        ++ [⟨.tProc rt ptids.length firstPt, false⟩] }
                  match buildTypeList fuel scope rest st3 with
                  | some (ids, st4) => some (tpId :: ids, st4)
                  | none => none
              | _ => none
          | none => none

/-- Build one type form. -/
def buildType (fuel : Nat) (scope : Nat) (tp : PType) (st : IRState) :
    Option (Nat × IRState) :=
  match buildTypeList fuel scope [tp] st with
  | some ([tpId], st1) => some (tpId, st1)
  | _ => none

/-- Create the symrefs contained in expressions (each `symref` expression
wraps a fresh `Symref` whose `refScope` is the current scope, §4.D). -/
def buildExprList : Nat → Nat → List PExpr → IRState → Option IRState
  | 0, _, _, _ => none
  | _ + 1, _, [], st => some st
  | fuel + 1, scope, e :: rest, st =>
      match e with
      | .lit _ => buildExprList fuel scope rest st
      | .sym n =>
          buildExprList fuel scope rest
            { st with symrefInfo := st.symrefInfo ++ [(⟨n, scope, 0, none⟩ : SymrefInfo)] }
      | .unop _ e1 =>
          match buildExprList fuel scope [e1] st with
          | some st1 => buildExprList fuel scope rest st1
          | none => none
      | .binop _ e1 e2 =>
          match buildExprList fuel scope [e1, e2] st with
          | some st1 => buildExprList fuel scope rest st1
          | none => none
      | .member e1 _ =>
          match buildExprList fuel scope [e1] st with
          | some st1 => buildExprList fuel scope rest st1
          | none => none
      | .subscript e1 e2 =>
          match buildExprList fuel scope [e1, e2] st with
          | some st1 => buildExprList fuel scope rest st1
          | none => none
      | .call callee args =>
          match buildExprList fuel scope (callee :: args) st with
          | some st1 => buildExprList fuel scope rest st1
          | none => none

/-- Perform the IR actions of a statement list in the given scope: `data`
and `array` declarations create symbols in that scope (no nested block
scopes exist, §4.D), other statements only contribute their expressions'
symrefs. -/
def buildStmtList : Nat → Nat → List PStmt → IRState → Option IRState
  | 0, _, _, _ => none
  | _ + 1, _, [], st => some st
  | fuel + 1, scope, s :: rest, st =>
      match s with
      | .exprS e =>
          match buildExprList (fuel + 1) scope [e] st with
          | some st1 => buildStmtList fuel scope rest st1
          | none => none
      | .returnS none => buildStmtList fuel scope rest st
      | .returnS (some e) =>
          match buildExprList (fuel + 1) scope [e] st with
          | some st1 => buildStmtList fuel scope rest st1
          | none => none
      | .compound body =>
          match buildStmtList fuel scope body st with
          | some st1 => buildStmtList fuel scope rest st1
          | none => none
      | .ifS cond body =>
          match buildExprList (fuel + 1) scope [cond] st with
          | some st1 =>
              match buildStmtList fuel scope [body] st1 with
              | some st2 => buildStmtList fuel scope rest st2
              | none => none
          | none => none
      | .whileS cond body =>
          match buildExprList (fuel + 1) scope [cond] st with
          | some st1 =>
              match buildStmtList fuel scope [body] st1 with
              | some st2 => buildStmtList fuel scope rest st2
              | none => none
          | none => none
      | .forS ini cond step body =>
          match buildExprList (fuel + 1) scope [ini, cond, step] st with
          | some st1 =>
              match buildStmtList fuel scope [body] st1 with
              | some st2 => buildStmtList fuel scope rest st2
              | none => none
          | none => none
      | .dataS name tp =>
          match buildType (fuel + 1) scope tp st with
          | some (t, st1) =>
              let dataId := st1.dataInfo.length
              let symId := st1.symbolInfo.length
              let st2 := appendSymbol st1 ⟨name, scope, .tData dataId⟩
              let st3 := { st2 with dataInfo := st2.dataInfo ++ [⟨scope, t, symId⟩] }
              buildStmtList fuel scope rest st3
          | none => none
      | .arrayS name idxtp valuetp =>
          match buildTypeList (fuel + 1) scope [idxtp, valuetp] st with
          | some ([ti, tv], st1) =>
              let tpId := st1.typeInfo.length
              let st2 := { st1 with typeInfo := st1.typeInfo ++ [⟨.tArray ti tv, false⟩] }
              let arrId := st2.arrayInfo.length
              let symId := st2.symbolInfo.length
              let st3 := appendSymbol st2 ⟨name, scope, .tArray arrId⟩
              let st4 := { st3 with arrayInfo := st3.arrayInfo ++ [⟨scope, tpId, symId⟩] }
              buildStmtList fuel scope rest st4
          | _ => none

/-- Declare the parameter symbols of a proc, in rank order (§4.D). -/
def buildParamSyms (procId scId : Nat) : List (Nat × Nat) → Nat → IRState → IRState
  | [], _, st => st
  | (argtp, name) :: rest, rank, st =>
      let paramId := st.paramInfo.length
      let symId := st.symbolInfo.length
      let st1 := appendSymbol st ⟨name, scId, .tParam paramId⟩
      let st2 := { st1 with paramInfo := st1.paramInfo ++ [⟨procId, symId, argtp, rank⟩] }
      buildParamSyms procId scId rest (rank + 1) st2

/-- Perform the IR actions of one top-level declaration (§4.D).  A proc
declares its symbol in the enclosing scope, opens a proc scope, declares
the parameters there, builds the proctype, processes the body, closes the
scope and records the `ProcInfo`. -/
def buildDecl (fuel : Nat) (st : IRState) : PDecl → Option IRState
  | .dataD name tp =>
      match buildType fuel st.currentScope tp st with
      | some (t, st1) =>
          let dataId := st1.dataInfo.length
          let symId := st1.symbolInfo.length
          let st2 := appendSymbol st1 ⟨name, st.currentScope, .tData dataId⟩
          some { st2 with dataInfo := st2.dataInfo ++ [⟨st.currentScope, t, symId⟩] }
      | none => none
  | .arrayD name idxtp valuetp =>
      match buildTypeList fuel st.currentScope [idxtp, valuetp] st with
      | some ([ti, tv], st1) =>
          let tpId := st1.typeInfo.length
          let st2 := { st1 with typeInfo := st1.typeInfo ++ [⟨.tArray ti tv, false⟩] }
          let arrId := st2.arrayInfo.length
          let symId := st2.symbolInfo.length
          let st3 := appendSymbol st2 ⟨name, st.currentScope, .tArray arrId⟩
          some { st3 with arrayInfo := st3.arrayInfo ++ [⟨st.currentScope, tpId, symId⟩] }
      | _ => none
  | .entityD name tp =>
      match buildType fuel st.currentScope tp st with
      | some (t, st1) =>
          let etId := st1.typeInfo.length
          let st2 := { st1 with typeInfo := st1.typeInfo ++ [⟨.tEntity name t, false⟩] }
          some (appendSymbol st2 ⟨name, st.currentScope, .tType etId⟩)
      | none => none
  | .procD name params rettp body =>
      let procId := st.procInfo.length
      let symId := st.symbolInfo.length
      let st1 := appendSymbol st ⟨name, st.currentScope, .tProc procId⟩
      let pr := pushScope st1 SCOPE_PROC (some procId)
      let scId := pr.1
      match buildTypeList fuel scId (params.map (fun p => p.1)) pr.2 with
      | some (ptids, st3) =>
          match buildType fuel scId rettp st3 with
          | some (rt, st4) =>
              let firstPt := st4.paramtypeInfo.length
              let tpId := st4.typeInfo.length
              let st5 :=
                { st4 with
                  paramtypeInfo := st4.paramtypeInfo
                    ++ (ptids.enum.map fun p => (⟨tpId, p.2, p.1⟩ : ParamtypeInfo)),
                  typeInfo := st4.typeInfo ++ [⟨.tProc rt ptids.length firstPt, false⟩] }
              let firstParam := st5.paramInfo.length
              let st6 := buildParamSyms procId scId
                (ptids.zip (params.map (fun p => p.2))) 0 st5
              match buildStmtList fuel scId body st6 with
              | some st7 =>
                  let st8 := popScope st7
                  some { st8 with procInfo := st8.procInfo
                    ++ [⟨tpId, symId, scId, params.length, firstParam, 0⟩] }
              | none => none
          | none => none
      | none => none

/-- Perform the IR actions of a whole program, declaration by
declaration. -/
def buildDecls (fuel : Nat) : List PDecl → IRState → Option IRState
  | [], st => some st
  | d :: rest, st =>
      match buildDecl fuel st d with
      | some st1 => buildDecls fuel rest st1
      | none => none

/-- The constant strings interned at startup (§4.A), in `ConstStrKind`
order, then the base-type name `int`; their ids are 0..8. -/
def startupStrings : List (List Nat) :=
  [strBytes "if", strBytes "while", strBytes "for", strBytes "return",
   strBytes "proc", strBytes "data", strBytes "entity", strBytes "array",
   strBytes "int"]

def startupPool : Pool := internList startupStrings

/-- The `String` id of `int` after startup interning. -/
def INT_STR : Nat := 8

/-- Modelled from the spec (§4.A): the state after startup registration:
the global scope, and the base type `int` with its `SYMBOL_TYPE` symbol in
the global scope. -/
def startupState : IRState :=
  appendSymbol
    { scopeInfo := [⟨none, 0, 0, SCOPE_GLOBAL, none⟩],
      symbolInfo := [], symrefInfo := [],
      typeInfo := [⟨.tBase INT_STR 8, true⟩],
      paramtypeInfo := [], dataInfo := [], arrayInfo := [], procInfo := [],
      paramInfo := [], scopeStack := [0], maxScopeDepth := 1 }
    ⟨INT_STR, 0, .tType 0⟩

/-- Lex, parse and build the IR arenas (the parsing phase of §2's data
flow), before the resolver and completer run. -/
def buildIR (src : List Nat) : Option IRState :=
  match lexBytes startupPool src with
  | none => none
  | some (toks, _) =>
      match parseProgram (parseFuel toks) toks with
      | none => none
      | some decls => buildDecls (parseFuel toks) decls startupState

/-- The whole front end (§2 data flow): lex with the startup pool, parse,
build the IR arenas, resolve symrefs, complete types.  `none` is a fatal
compilation error at any stage. -/
def compileBytes (src : List Nat) : Option IRState :=
  match buildIR src with
  | none => none
  | some st =>
      match resolve_symrefs st.scopeInfo st.symbolInfo st.symrefInfo with
      | none => none
      | some srefs =>
          let st2 := { st with symrefInfo := srefs }
          match complete_types st2.symrefInfo st2.symbolInfo
              st2.paramtypeInfo st2.typeInfo with
          | none => none
          | some types => some { st2 with typeInfo := types }

/-! ## Claim C4 -/

/-- The S6 cycle program with direct (non-reference) members. -/
def directCycleSrc : List Nat :=
  strBytes "entity A \x7b B; \x7d entity B \x7b A; \x7d"

/-- The S6 cycle program with pointer indirection. -/
def ptrCycleSrc : List Nat :=
  strBytes "entity A \x7b *B; \x7d entity B \x7b *A; \x7d"

/-- C4 counterexample: the claim says compilation of
`entity A \x7b *B; \x7d entity B \x7b *A; \x7d` succeeds with both entity
types complete; in fact it is fatal, exactly like the direct cycle.  In the
`api.h` data model a `*`-pointer type is the same `TYPE_REFERENCE` record
(`ReftypeInfo` holds only the symref and the `resolvedTp` cache — there is
no pointer type kind), so the completer cannot treat the two programs
differently. -/
theorem C4_pointer_cycle_counterexample :
    compileBytes ptrCycleSrc = none ∧ buildIR ptrCycleSrc = buildIR directCycleSrc := by
  exact ⟨by rfl, by rfl⟩

/-- C4 as amended: the direct cycle `entity A \x7b B; \x7d entity B
\x7b A; \x7d` is fatal, with resolution succeeding and the completer's
fixpoint leaving both entity types (arena ids 2 and 4) incomplete; and the
pointer-indirection form builds the identical IR, so it is equally fatal
rather than succeeding. -/
theorem C4_cycle_fatal :
    compileBytes directCycleSrc = none ∧
    compileBytes ptrCycleSrc = none ∧
    buildIR ptrCycleSrc = buildIR directCycleSrc ∧
    (∀ st : IRState, buildIR directCycleSrc = some st →
      ∃ srefs : List SymrefInfo,
        resolve_symrefs st.scopeInfo st.symbolInfo st.symrefInfo = some srefs ∧
        complete_types srefs st.symbolInfo st.paramtypeInfo st.typeInfo = none ∧
        completeAt (sweepN srefs st.symbolInfo st.paramtypeInfo
          st.typeInfo.length st.typeInfo) 2 = false ∧
        completeAt (sweepN srefs st.symbolInfo st.paramtypeInfo
          st.typeInfo.length st.typeInfo) 4 = false ∧
        (st.typeInfo[2]?).map TypeInfo.kind = some TYPE_ENTITY ∧
        (st.typeInfo[4]?).map TypeInfo.kind = some TYPE_ENTITY) := by
  refine ⟨by rfl, by rfl, by rfl, ?_⟩
  intro st h
  rw [show buildIR directCycleSrc
      = some ((buildIR directCycleSrc).getD startupState) from by rfl] at h
  injection h with h
  subst h
  exact ⟨(resolve_symrefs ((buildIR directCycleSrc).getD startupState).scopeInfo
      ((buildIR directCycleSrc).getD startupState).symbolInfo
      ((buildIR directCycleSrc).getD startupState).symrefInfo).getD [],
    by rfl, by rfl, by rfl, by rfl, by rfl, by rfl⟩


/-! ## Claims C7 and C9: scope invariants of the IR builder -/

/-- An entry of `l ++ [a]` is either an old entry of `l` or the appended
element at index `l.length`. -/
theorem getElem_opt_concat_cases {α : Type} (l : List α) (a : α) (i : Nat) (b : α)
    (h : (l ++ [a])[i]? = some b) :
    (i < l.length ∧ l[i]? = some b) ∨ (i = l.length ∧ b = a) := by
  by_cases hi : i < l.length
  · exact Or.inl ⟨hi, by rw [List.getElem?_append_left hi] at h; exact h⟩
  · have hlen : i < l.length + 1 := by
      have h2 := (List.getElem?_eq_some.mp h).1
      simpa using h2
    have hie : i = l.length := by omega
    subst hie
    rw [List.getElem?_concat_length] at h
    exact Or.inr ⟨rfl, (Option.some.inj h).symm⟩

/-- Every symbol's owning scope id is a valid index into the scope arena. -/
def symScopesValid (scopes : List ScopeInfo) (symbols : List SymbolInfo) : Prop :=
  ∀ (i : Nat) (sym : SymbolInfo), symbols[i]? = some sym → sym.scope < scopes.length

/-- Scope `s` with record `sc` owns exactly the contiguous range
`[firstSymbol, firstSymbol + numSymbols)` of the symbol arena, and that
range lies inside the arena. -/
def contigAt (symbols : List SymbolInfo) (s : Nat) (sc : ScopeInfo) : Prop :=
  (∀ (i : Nat) (sym : SymbolInfo), symbols[i]? = some sym →
     (sym.scope = s ↔ (sc.firstSymbol ≤ i ∧ i < sc.firstSymbol + sc.numSymbols))) ∧
  sc.firstSymbol + sc.numSymbols ≤ symbols.length

/-- The scope invariant maintained by the IR builder: symbol owners are
valid scope ids, every `SCOPE_PROC` scope is contiguous, and scope 0 is the
global scope. -/
def coreInv (scopes : List ScopeInfo) (symbols : List SymbolInfo) : Prop :=
  symScopesValid scopes symbols ∧
  (∀ (s : Nat) (sc : ScopeInfo), scopes[s]? = some sc → sc.kind = SCOPE_PROC →
     contigAt symbols s sc) ∧
  (∃ sc0 : ScopeInfo, scopes[0]? = some sc0 ∧ sc0.kind = SCOPE_GLOBAL)

def CORE (st : IRState) : Prop := coreInv st.scopeInfo st.symbolInfo

/-- Scope `s` may still receive symbols: it is the global scope, or its
range currently ends exactly at the end of the symbol arena. -/
def openAt (scopes : List ScopeInfo) (symbols : List SymbolInfo) (s : Nat) : Prop :=
  ∃ sc : ScopeInfo, scopes[s]? = some sc ∧
    (sc.kind = SCOPE_GLOBAL ∨ sc.firstSymbol + sc.numSymbols = symbols.length)

def OpenScope (st : IRState) (s : Nat) : Prop := openAt st.scopeInfo st.symbolInfo s

/-- A builder step that leaves the components relevant to the scope
invariants unchanged. -/
def ScopeFrame (st st2 : IRState) : Prop :=
  st2.symbolInfo = st.symbolInfo ∧ st2.scopeInfo = st.scopeInfo ∧
  st2.scopeStack = st.scopeStack ∧ st2.maxScopeDepth = st.maxScopeDepth

theorem scopeFrame_trans {a b c : IRState} (h1 : ScopeFrame a b) (h2 : ScopeFrame b c) :
    ScopeFrame a c :=
  ⟨h2.1.trans h1.1, h2.2.1.trans h1.2.1, h2.2.2.1.trans h1.2.2.1,
   h2.2.2.2.trans h1.2.2.2⟩

theorem core_of_frame {st st2 : IRState} (hf : ScopeFrame st st2) (h : CORE st) :
    CORE st2 := by
  unfold CORE
  rw [hf.2.1, hf.1]
  exact h

theorem open_of_frame {st st2 : IRState} (s : Nat) (hf : ScopeFrame st st2)
    (h : OpenScope st s) : OpenScope st2 s := by
  unfold OpenScope
  rw [hf.2.1, hf.1]
  exact h

/-- `appendSymbol` preserves the scope invariant when the symbol goes into
an open scope, and keeps that scope open. -/
theorem appendSymbol_pres (st : IRState) (sym : SymbolInfo)
    (hcore : CORE st) (hopen : OpenScope st sym.scope) :
    CORE (appendSymbol st sym) ∧
    OpenScope (appendSymbol st sym) sym.scope ∧
    (appendSymbol st sym).scopeInfo.length = st.scopeInfo.length ∧
    (appendSymbol st sym).symbolInfo.length = st.symbolInfo.length + 1 ∧
    (appendSymbol st sym).scopeStack = st.scopeStack ∧
    (appendSymbol st sym).maxScopeDepth = st.maxScopeDepth := by
  obtain ⟨sc, hsc, hv⟩ := hopen
  have hvalid : sym.scope < st.scopeInfo.length := (List.getElem?_eq_some.mp hsc).1
  have happ : appendSymbol st sym =
      { st with
        symbolInfo := st.symbolInfo ++ [sym]
        scopeInfo := st.scopeInfo.set sym.scope
          ({ sc with numSymbols := sc.numSymbols + 1 }) } := by
    unfold appendSymbol
    rw [hsc]
  have hsv : symScopesValid
      (st.scopeInfo.set sym.scope ({ sc with numSymbols := sc.numSymbols + 1 }))
      (st.symbolInfo ++ [sym]) := by
    intro i sym2 h2
    rw [List.length_set]
    rcases getElem_opt_concat_cases _ _ _ _ h2 with ⟨_, holdi⟩ | ⟨_, he2⟩
    · exact hcore.1 i sym2 holdi
    · rw [he2]
      exact hvalid
  have hcontig : ∀ (s : Nat) (sc2 : ScopeInfo),
      (st.scopeInfo.set sym.scope ({ sc with numSymbols := sc.numSymbols + 1 }))[s]?
        = some sc2 →
      sc2.kind = SCOPE_PROC → contigAt (st.symbolInfo ++ [sym]) s sc2 := by
    intro s sc2 hs2 hk
    have hlen : (st.symbolInfo ++ [sym]).length = st.symbolInfo.length + 1 := by simp
    by_cases hss : s = sym.scope
    · subst hss
      rw [List.getElem?_set_self hvalid] at hs2
      have hsc2 : sc2 = { sc with numSymbols := sc.numSymbols + 1 } :=
        (Option.some.inj hs2).symm
      have hf1 : sc2.firstSymbol = sc.firstSymbol := by rw [hsc2]
      have hf2 : sc2.numSymbols = sc.numSymbols + 1 := by rw [hsc2]
      have hkp : sc.kind = SCOPE_PROC := by
        rw [hsc2] at hk
        exact hk
      have hend : sc.firstSymbol + sc.numSymbols = st.symbolInfo.length := by
        rcases hv with hg | he
        · exact absurd (hg.symm.trans hkp) (by intro hh; exact ScopeKind.noConfusion hh)
        · exact he
      have hold := hcore.2.1 sym.scope sc hsc hkp
      refine ⟨?_, by omega⟩
      intro i sym2 h2
      rcases getElem_opt_concat_cases _ _ _ _ h2 with ⟨hi, holdi⟩ | ⟨hi, he2⟩
      · have hiff := hold.1 i sym2 holdi
        constructor
        · intro hl
          have hr := hiff.mp hl
          omega
        · intro hr
          apply hiff.mpr
          omega
      · rw [he2, hi]
        constructor
        · intro _
          omega
        · intro _
          rfl
    · have hget : st.scopeInfo[s]? = some sc2 := by
        rw [List.getElem?_set_ne (fun hh => hss hh.symm)] at hs2
        exact hs2
      have hold := hcore.2.1 s sc2 hget hk
      have hb := hold.2
      refine ⟨?_, by omega⟩
      intro i sym2 h2
      rcases getElem_opt_concat_cases _ _ _ _ h2 with ⟨hi, holdi⟩ | ⟨hi, he2⟩
      · exact hold.1 i sym2 holdi
      · rw [he2, hi]
        constructor
        · intro hl
          exact absurd hl.symm hss
        · intro hr
          exfalso
          omega
  have hglobal : ∃ sc0 : ScopeInfo,
      (st.scopeInfo.set sym.scope ({ sc with numSymbols := sc.numSymbols + 1 }))[0]?
        = some sc0 ∧ sc0.kind = SCOPE_GLOBAL := by
    obtain ⟨sc0, h0, hg⟩ := hcore.2.2
    by_cases h0s : sym.scope = 0
    · have hseq : sc = sc0 := by
        rw [h0s] at hsc
        exact Option.some.inj (hsc.symm.trans h0)
      refine ⟨{ sc with numSymbols := sc.numSymbols + 1 }, ?_, ?_⟩
      · rw [h0s]
        rw [h0s] at hvalid
        exact List.getElem?_set_self hvalid
      · show sc.kind = SCOPE_GLOBAL
        rw [hseq]
        exact hg
    · exact ⟨sc0, by rw [List.getElem?_set_ne h0s]; exact h0, hg⟩
  have hopen2 : openAt
      (st.scopeInfo.set sym.scope ({ sc with numSymbols := sc.numSymbols + 1 }))
      (st.symbolInfo ++ [sym]) sym.scope := by
    refine ⟨{ sc with numSymbols := sc.numSymbols + 1 },
      List.getElem?_set_self hvalid, ?_⟩
    rcases hv with hg | he
    · exact Or.inl hg
    · refine Or.inr ?_
      show sc.firstSymbol + (sc.numSymbols + 1) = (st.symbolInfo ++ [sym]).length
      simp
      omega
  refine ⟨?_, ?_, ?_, ?_, ?_, ?_⟩
  · rw [happ]
    exact ⟨hsv, hcontig, hglobal⟩
  · rw [happ]
    exact hopen2
  · rw [happ]
    simp
  · rw [happ]
    simp
  · rw [happ]
  · rw [happ]

/-- `pushScope` preserves the scope invariant; the new scope is empty,
hence open, and the stack and depth evolve as recorded. -/
theorem pushScope_pres (st : IRState) (proc : Option Nat) (hcore : CORE st) :
    CORE (pushScope st SCOPE_PROC proc).2 ∧
    OpenScope (pushScope st SCOPE_PROC proc).2 (pushScope st SCOPE_PROC proc).1 ∧
    (pushScope st SCOPE_PROC proc).1 = st.scopeInfo.length ∧
    (pushScope st SCOPE_PROC proc).2.symbolInfo = st.symbolInfo ∧
    (pushScope st SCOPE_PROC proc).2.scopeStack = st.scopeInfo.length :: st.scopeStack ∧
    (pushScope st SCOPE_PROC proc).2.maxScopeDepth
      = max st.maxScopeDepth (st.scopeStack.length + 1) := by
  refine ⟨?_, ?_, rfl, rfl, rfl, rfl⟩
  · show coreInv
      (st.scopeInfo
        ++ [⟨some st.currentScope, st.symbolInfo.length, 0, SCOPE_PROC, proc⟩])
      st.symbolInfo
    have hlen : (st.scopeInfo
        ++ [(⟨some st.currentScope, st.symbolInfo.length, 0, SCOPE_PROC,
              proc⟩ : ScopeInfo)]).length
        = st.scopeInfo.length + 1 := by simp
    refine ⟨?_, ?_, ?_⟩
    · intro i sym2 h2
      have hlt := hcore.1 i sym2 h2
      omega
    · intro s sc2 hs2 hk
      rcases getElem_opt_concat_cases _ _ _ _ hs2 with ⟨_, holdi⟩ | ⟨hi, he2⟩
      · exact hcore.2.1 s sc2 holdi hk
      · have hf1 : sc2.firstSymbol = st.symbolInfo.length := by rw [he2]
        have hf2 : sc2.numSymbols = 0 := by rw [he2]
        refine ⟨?_, by omega⟩
        intro i sym2 h2
        have hlt := hcore.1 i sym2 h2
        constructor
        · intro hl
          omega
        · intro hr
          exfalso
          omega
    · obtain ⟨sc0, h0, hg⟩ := hcore.2.2
      have h0lt : (0:Nat) < st.scopeInfo.length := (List.getElem?_eq_some.mp h0).1
      exact ⟨sc0, by rw [List.getElem?_append_left h0lt]; exact h0, hg⟩
  · show openAt
      (st.scopeInfo
        ++ [⟨some st.currentScope, st.symbolInfo.length, 0, SCOPE_PROC, proc⟩])
      st.symbolInfo st.scopeInfo.length
    exact ⟨⟨some st.currentScope, st.symbolInfo.length, 0, SCOPE_PROC, proc⟩,
      List.getElem?_concat_length _ _, Or.inr rfl⟩

/-- Building types touches only the symref/type/paramtype arenas. -/
theorem buildTypeList_frame (fuel : Nat) :
    ∀ (scope : Nat) (l : List PType) (st : IRState) (r : List Nat × IRState),
      buildTypeList fuel scope l st = some r → ScopeFrame st r.2 := by
  induction fuel with
  | zero =>
      intro scope l st r h
      exact Option.noConfusion h
  | succ fuel ih =>
      intro scope l st r h
      match l with
      | [] =>
          have hr : ([], st) = r := Option.some.inj h
          rw [← hr]
          exact ⟨rfl, rfl, rfl, rfl⟩
      | tp :: rest =>
          cases tp with
          | named n =>
              simp only [buildTypeList] at h
              split at h
              · rename_i ids st3 heq
                have hf2 := ih scope rest _ _ heq
                have hr := Option.some.inj h
                rw [← hr]
                exact scopeFrame_trans ⟨rfl, rfl, rfl, rfl⟩ hf2
              · exact Option.noConfusion h
          | ptr n =>
              simp only [buildTypeList] at h
              split at h
              · rename_i ids st3 heq
                have hf2 := ih scope rest _ _ heq
                have hr := Option.some.inj h
                rw [← hr]
                exact scopeFrame_trans ⟨rfl, rfl, rfl, rfl⟩ hf2
              · exact Option.noConfusion h
          | arr idxtp valuetp =>
              simp only [buildTypeList] at h
              split at h
              · rename_i ti tv st2 heq
                split at h
                · rename_i ids st4 heq2
                  have hf1 := ih scope [idxtp, valuetp] st _ heq
                  have hf2 := ih scope rest _ _ heq2
                  have hr := Option.some.inj h
                  rw [← hr]
                  exact scopeFrame_trans hf1 (scopeFrame_trans ⟨rfl, rfl, rfl, rfl⟩ hf2)
                · exact Option.noConfusion h
              all_goals exact Option.noConfusion h
          | procT ps rettp =>
              simp only [buildTypeList] at h
              split at h
              · rename_i ptids st1 heq
                split at h
                · rename_i rt st2 heq2
                  split at h
                  · rename_i ids st4 heq3
                    have hf1 := ih scope ps st _ heq
                    have hf2 := ih scope [rettp] _ _ heq2
                    have hf3 := ih scope rest _ _ heq3
                    have hr := Option.some.inj h
                    rw [← hr]
                    exact scopeFrame_trans hf1 (scopeFrame_trans hf2
                      (scopeFrame_trans ⟨rfl, rfl, rfl, rfl⟩ hf3))
                  · exact Option.noConfusion h
                all_goals exact Option.noConfusion h
              · exact Option.noConfusion h

/-- Building one type form touches only the symref/type/paramtype arenas. -/
theorem buildType_frame (fuel scope : Nat) (tp : PType) (st : IRState)
    (t : Nat) (st2 : IRState) (h : buildType fuel scope tp st = some (t, st2)) :
    ScopeFrame st st2 := by
  unfold buildType at h
  split at h
  · rename_i tpId st1 heq
    have hf := buildTypeList_frame fuel scope [tp] st _ heq
    have hr := Option.some.inj h
    have heq2 : st1 = st2 := congrArg Prod.snd hr
    rw [← heq2]
    exact hf
  all_goals exact Option.noConfusion h

/-- Building expressions touches only the symref arena. -/
theorem buildExprList_frame (fuel : Nat) :
    ∀ (scope : Nat) (l : List PExpr) (st st2 : IRState),
      buildExprList fuel scope l st = some st2 → ScopeFrame st st2 := by
  induction fuel with
  | zero =>
      intro scope l st st2 h
      exact Option.noConfusion h
  | succ fuel ih =>
      intro scope l st st2 h
      match l with
      | [] =>
          have hr : st = st2 := Option.some.inj h
          rw [← hr]
          exact ⟨rfl, rfl, rfl, rfl⟩
      | e :: rest =>
          cases e with
          | lit v =>
              simp only [buildExprList] at h
              exact ih scope rest st st2 h
          | sym n =>
              simp only [buildExprList] at h
              have hf2 := ih scope rest _ st2 h
              exact scopeFrame_trans ⟨rfl, rfl, rfl, rfl⟩ hf2
          | unop u e1 =>
              simp only [buildExprList] at h
              split at h
              · rename_i st1 heq
                have hf1 := ih scope [e1] st st1 heq
                have hf2 := ih scope rest st1 st2 h
                exact scopeFrame_trans hf1 hf2
              · exact Option.noConfusion h
          | binop b e1 e2 =>
              simp only [buildExprList] at h
              split at h
              · rename_i st1 heq
                have hf1 := ih scope [e1, e2] st st1 heq
                have hf2 := ih scope rest st1 st2 h
                exact scopeFrame_trans hf1 hf2
              · exact Option.noConfusion h
          | member e1 nm =>
              simp only [buildExprList] at h
              split at h
              · rename_i st1 heq
                have hf1 := ih scope [e1] st st1 heq
                have hf2 := ih scope rest st1 st2 h
                exact scopeFrame_trans hf1 hf2
              · exact Option.noConfusion h
          | subscript e1 e2 =>
              simp only [buildExprList] at h
              split at h
              · rename_i st1 heq
                have hf1 := ih scope [e1, e2] st st1 heq
                have hf2 := ih scope rest st1 st2 h
                exact scopeFrame_trans hf1 hf2
              · exact Option.noConfusion h
          | call callee args =>
              simp only [buildExprList] at h
              split at h
              · rename_i st1 heq
                have hf1 := ih scope (callee :: args) st st1 heq
                have hf2 := ih scope rest st1 st2 h
                exact scopeFrame_trans hf1 hf2
              · exact Option.noConfusion h

/-- The scope-invariant facts carried along the statement builder: the
invariant and the openness of the working scope persist, and the scope
arena size, the stack and the depth high-water mark are unchanged. -/
def presTo (scope : Nat) (st st2 : IRState) : Prop :=
  CORE st2 ∧ OpenScope st2 scope ∧
  st2.scopeInfo.length = st.scopeInfo.length ∧
  st2.scopeStack = st.scopeStack ∧ st2.maxScopeDepth = st.maxScopeDepth

theorem presTo_trans {scope : Nat} {a b c : IRState}
    (h1 : presTo scope a b) (h2 : presTo scope b c) : presTo scope a c :=
  ⟨h2.1, h2.2.1, h2.2.2.1.trans h1.2.2.1, h2.2.2.2.1.trans h1.2.2.2.1,
   h2.2.2.2.2.trans h1.2.2.2.2⟩

theorem presTo_of_frame {scope : Nat} {a b : IRState} (hf : ScopeFrame a b)
    (hc : CORE a) (ho : OpenScope a scope) : presTo scope a b :=
  ⟨core_of_frame hf hc, open_of_frame scope hf ho,
   congrArg List.length hf.2.1, hf.2.2.1, hf.2.2.2⟩

theorem presTo_of_append {scope : Nat} {a : IRState} (sym : SymbolInfo)
    (hc : CORE a) (ho : OpenScope a scope) (hsym : sym.scope = scope) :
    presTo scope a (appendSymbol a sym) := by
  subst hsym
  obtain ⟨h1, h2, h3, _, h5, h6⟩ := appendSymbol_pres a sym hc ho
  exact ⟨h1, h2, h3, h5, h6⟩

/-- The parameter-symbol builder appends only to the open working scope. -/
theorem buildParamSyms_pres (procId scId : Nat) :
    ∀ (ps : List (Nat × Nat)) (rank : Nat) (st : IRState),
      CORE st → OpenScope st scId →
      presTo scId st (buildParamSyms procId scId ps rank st) := by
  intro ps
  induction ps with
  | nil =>
      intro rank st hc ho
      exact ⟨hc, ho, rfl, rfl, rfl⟩
  | cons p rest ihp =>
      intro rank st hc ho
      obtain ⟨argtp, name⟩ := p
      have p1 : presTo scId st
          (appendSymbol st ⟨name, scId, SymbolPayload.tParam st.paramInfo.length⟩) :=
        presTo_of_append ⟨name, scId, SymbolPayload.tParam st.paramInfo.length⟩ hc ho rfl
      have p2 := ihp (rank + 1)
        ({ appendSymbol st ⟨name, scId, SymbolPayload.tParam st.paramInfo.length⟩ with
           paramInfo := (appendSymbol st
               ⟨name, scId, SymbolPayload.tParam st.paramInfo.length⟩).paramInfo
             ++ [⟨procId, st.symbolInfo.length, argtp, rank⟩] })
        p1.1 p1.2.1
      exact presTo_trans p1 p2

/-- The statement builder preserves the scope invariant and the openness of
the working scope; it creates no scopes and never touches the stack. -/
theorem buildStmtList_pres (fuel : Nat) :
    ∀ (scope : Nat) (ss : List PStmt) (st st2 : IRState),
      buildStmtList fuel scope ss st = some st2 →
      CORE st → OpenScope st scope → presTo scope st st2 := by
  induction fuel with
  | zero =>
      intro scope ss st st2 h _ _
      exact Option.noConfusion h
  | succ fuel ih =>
      intro scope ss st st2 h hcore hopen
      match ss with
      | [] =>
          have hr : st = st2 := Option.some.inj h
          rw [← hr]
          exact ⟨hcore, hopen, rfl, rfl, rfl⟩
      | s :: rest =>
          cases s with
          | exprS e =>
              simp only [buildStmtList] at h
              split at h
              · rename_i st1 heq
                have p1 := presTo_of_frame
                  (buildExprList_frame (fuel + 1) scope [e] st st1 heq) hcore hopen
                have p3 := ih scope rest st1 st2 h p1.1 p1.2.1
                exact presTo_trans p1 p3
              · exact Option.noConfusion h
          | returnS oe =>
              cases oe with
              | none =>
                  simp only [buildStmtList] at h
                  exact ih scope rest st st2 h hcore hopen
              | some e =>
                  simp only [buildStmtList] at h
                  split at h
                  · rename_i st1 heq
                    have p1 := presTo_of_frame
                      (buildExprList_frame (fuel + 1) scope [e] st st1 heq) hcore hopen
                    have p3 := ih scope rest st1 st2 h p1.1 p1.2.1
                    exact presTo_trans p1 p3
                  · exact Option.noConfusion h
          | compound body =>
              simp only [buildStmtList] at h
              split at h
              · rename_i st1 heq
                have p1 := ih scope body st st1 heq hcore hopen
                have p3 := ih scope rest st1 st2 h p1.1 p1.2.1
                exact presTo_trans p1 p3
              · exact Option.noConfusion h
          | ifS cond body =>
              simp only [buildStmtList] at h
              split at h
              · rename_i st1 heq
                split at h
                · rename_i st3 heq2
                  have p1 := presTo_of_frame
                    (buildExprList_frame (fuel + 1) scope [cond] st st1 heq) hcore hopen
                  have pb := ih scope [body] st1 st3 heq2 p1.1 p1.2.1
                  have p2 := presTo_trans p1 pb
                  have p3 := ih scope rest st3 st2 h p2.1 p2.2.1
                  exact presTo_trans p2 p3
                · exact Option.noConfusion h
              · exact Option.noConfusion h
          | whileS cond body =>
              simp only [buildStmtList] at h
              split at h
              · rename_i st1 heq
                split at h
                · rename_i st3 heq2
                  have p1 := presTo_of_frame
                    (buildExprList_frame (fuel + 1) scope [cond] st st1 heq) hcore hopen
                  have pb := ih scope [body] st1 st3 heq2 p1.1 p1.2.1
                  have p2 := presTo_trans p1 pb
                  have p3 := ih scope rest st3 st2 h p2.1 p2.2.1
                  exact presTo_trans p2 p3
                · exact Option.noConfusion h
              · exact Option.noConfusion h
          | forS ini cond step body =>
              simp only [buildStmtList] at h
              split at h
              · rename_i st1 heq
                split at h
                · rename_i st3 heq2
                  have p1 := presTo_of_frame
                    (buildExprList_frame (fuel + 1) scope [ini, cond, step] st st1 heq)
                    hcore hopen
                  have pb := ih scope [body] st1 st3 heq2 p1.1 p1.2.1
                  have p2 := presTo_trans p1 pb
                  have p3 := ih scope rest st3 st2 h p2.1 p2.2.1
                  exact presTo_trans p2 p3
                · exact Option.noConfusion h
              · exact Option.noConfusion h
          | dataS name tp =>
              simp only [buildStmtList] at h
              split at h
              · rename_i t st1 heq
                have p1 := presTo_of_frame
                  (buildType_frame (fuel + 1) scope tp st t st1 heq) hcore hopen
                have p2 := presTo_trans p1 (presTo_of_append
                  ⟨name, scope, SymbolPayload.tData st1.dataInfo.length⟩ p1.1 p1.2.1 rfl)
                have p3 := ih scope rest _ st2 h p2.1 p2.2.1
                exact presTo_trans p2 p3
              · exact Option.noConfusion h
          | arrayS name idxtp valuetp =>
              simp only [buildStmtList] at h
              split at h
              · rename_i ti tv st1 heq
                have p1 := presTo_of_frame
                  (buildTypeList_frame (fuel + 1) scope [idxtp, valuetp] st _ heq)
                  hcore hopen
                have p2 := presTo_trans p1 (presTo_of_append
                  ⟨name, scope, SymbolPayload.tArray st1.arrayInfo.length⟩ p1.1 p1.2.1 rfl)
                have p3 := ih scope rest _ st2 h p2.1 p2.2.1
                exact presTo_trans p2 p3
              all_goals exact Option.noConfusion h

/-- The global invariant between top-level declarations: the scope
invariant holds and the stack is exactly the global scope. -/
def INVG (st : IRState) : Prop := CORE st ∧ st.scopeStack = [0]

theorem invg_open (st : IRState) (h : INVG st) : OpenScope st st.currentScope := by
  obtain ⟨⟨_, _, sc0, h0, hg⟩, hstack⟩ := h
  have hcur : st.currentScope = 0 := by
    unfold IRState.currentScope
    rw [hstack]
    rfl
  rw [hcur]
  exact ⟨sc0, h0, Or.inl hg⟩

/-- One top-level declaration preserves the global invariant; a proc
declaration's stack reaches depth 2 and returns. -/
theorem buildDecl_pres (fuel : Nat) (st : IRState) (d : PDecl) (st2 : IRState)
    (h : buildDecl fuel st d = some st2) (hinv : INVG st) :
    INVG st2 ∧ st2.maxScopeDepth ≤ max st.maxScopeDepth 2 := by
  obtain ⟨hcore, hstack⟩ := hinv
  have hopen : OpenScope st st.currentScope := invg_open st ⟨hcore, hstack⟩
  cases d with
  | dataD name tp =>
      simp only [buildDecl] at h
      split at h
      · rename_i t st1 heq
        have p1 := presTo_of_frame
          (buildType_frame fuel st.currentScope tp st t st1 heq) hcore hopen
        have p2 := presTo_trans p1 (presTo_of_append
          ⟨name, st.currentScope, SymbolPayload.tData st1.dataInfo.length⟩
          p1.1 p1.2.1 rfl)
        have hr := Option.some.inj h
        rw [← hr]
        refine ⟨⟨p2.1, ?_⟩, ?_⟩
        · show (appendSymbol st1
            ⟨name, st.currentScope, SymbolPayload.tData st1.dataInfo.length⟩).scopeStack
            = [0]
          rw [p2.2.2.2.1]
          exact hstack
        · show (appendSymbol st1
            ⟨name, st.currentScope, SymbolPayload.tData st1.dataInfo.length⟩).maxScopeDepth
            ≤ max st.maxScopeDepth 2
          rw [p2.2.2.2.2]
          exact le_max_left _ _
      · exact Option.noConfusion h
  | arrayD name idxtp valuetp =>
      simp only [buildDecl] at h
      split at h
      · rename_i ti tv st1 heq
        have p1 := presTo_of_frame
          (buildTypeList_frame fuel st.currentScope [idxtp, valuetp] st _ heq)
          hcore hopen
        have p2 := presTo_trans p1 (presTo_of_append
          ⟨name, st.currentScope, SymbolPayload.tArray st1.arrayInfo.length⟩
          p1.1 p1.2.1 rfl)
        have hr := Option.some.inj h
        rw [← hr]
        refine ⟨⟨p2.1, ?_⟩, ?_⟩
        · show (appendSymbol st1
            ⟨name, st.currentScope, SymbolPayload.tArray st1.arrayInfo.length⟩).scopeStack
            = [0]
          rw [p2.2.2.2.1]
          exact hstack
        · show (appendSymbol st1
            ⟨name, st.currentScope, SymbolPayload.tArray st1.arrayInfo.length⟩).maxScopeDepth
            ≤ max st.maxScopeDepth 2
          rw [p2.2.2.2.2]
          exact le_max_left _ _
      all_goals exact Option.noConfusion h
  | entityD name tp =>
      simp only [buildDecl] at h
      split at h
      · rename_i t st1 heq
        have p1 := presTo_of_frame
          (buildType_frame fuel st.currentScope tp st t st1 heq) hcore hopen
        have p2 := presTo_trans p1 (presTo_of_append
          ⟨name, st.currentScope, SymbolPayload.tType st1.typeInfo.length⟩
          p1.1 p1.2.1 rfl)
        have hr := Option.some.inj h
        rw [← hr]
        refine ⟨⟨p2.1, ?_⟩, ?_⟩
        · show (appendSymbol st1
            ⟨name, st.currentScope, SymbolPayload.tType st1.typeInfo.length⟩).scopeStack
            = [0]
          rw [p2.2.2.2.1]
          exact hstack
        · show (appendSymbol st1
            ⟨name, st.currentScope, SymbolPayload.tType st1.typeInfo.length⟩).maxScopeDepth
            ≤ max st.maxScopeDepth 2
          rw [p2.2.2.2.2]
          exact le_max_left _ _
      · exact Option.noConfusion h
  | procD name params rettp body =>
      simp only [buildDecl] at h
      split at h
      · rename_i ptids st3 heq3
        split at h
        · rename_i rt st4 heq4
          split at h
          · rename_i st7 heq7
            have a1 := appendSymbol_pres st
              ⟨name, st.currentScope, SymbolPayload.tProc st.procInfo.length⟩ hcore hopen
            have pp := pushScope_pres
              (appendSymbol st
                ⟨name, st.currentScope, SymbolPayload.tProc st.procInfo.length⟩)
              (some st.procInfo.length) a1.1
            have q1 := presTo_of_frame (buildTypeList_frame fuel _ _ _ _ heq3)
              pp.1 pp.2.1
            have q2 := presTo_trans q1
              (presTo_of_frame (buildType_frame fuel _ rettp st3 rt st4 heq4)
                q1.1 q1.2.1)
            have q4p := buildParamSyms_pres st.procInfo.length _
              (ptids.zip (params.map (fun p => p.2))) 0
              ({ st4 with
                 paramtypeInfo := st4.paramtypeInfo
                   ++ (ptids.enum.map fun p =>
                     (⟨st4.typeInfo.length, p.2, p.1⟩ : ParamtypeInfo))
                 typeInfo := st4.typeInfo
                   ++ [⟨.tProc rt ptids.length st4.paramtypeInfo.length, false⟩] })
              q2.1 q2.2.1
            have q4 := presTo_trans q2 q4p
            have q5p := buildStmtList_pres fuel _ body _ st7 heq7 q4.1 q4.2.1
            have q5 := presTo_trans q4 q5p
            have hr := Option.some.inj h
            rw [← hr]
            refine ⟨⟨q5.1, ?_⟩, ?_⟩
            · show st7.scopeStack.tail = [0]
              rw [q5.2.2.2.1, pp.2.2.2.2.1, List.tail_cons, a1.2.2.2.2.1, hstack]
            · show st7.maxScopeDepth ≤ max st.maxScopeDepth 2
              rw [q5.2.2.2.2, pp.2.2.2.2.2, a1.2.2.2.2.2, a1.2.2.2.2.1, hstack]
              exact Nat.le_refl _
          · exact Option.noConfusion h
        · exact Option.noConfusion h
      · exact Option.noConfusion h

/-- A declaration list preserves the global invariant, and the stack depth
high-water mark never exceeds the larger of its initial value and 2. -/
theorem buildDecls_pres (fuel : Nat) :
    ∀ (ds : List PDecl) (st st2 : IRState),
      buildDecls fuel ds st = some st2 → INVG st →
      INVG st2 ∧ st2.maxScopeDepth ≤ max st.maxScopeDepth 2 := by
  intro ds
  induction ds with
  | nil =>
      intro st st2 h hinv
      have hr : st = st2 := Option.some.inj h
      rw [← hr]
      exact ⟨hinv, le_max_left _ _⟩
  | cons d rest ihd =>
      intro st st2 h hinv
      simp only [buildDecls] at h
      split at h
      · rename_i st1 heq
        have b1 := buildDecl_pres fuel st d st1 heq hinv
        have b2 := ihd st1 st2 h b1.1
        refine ⟨b2.1, ?_⟩
        have h1 := b1.2
        have h2 := b2.2
        omega
      · exact Option.noConfusion h

/-- The startup state satisfies the global invariant with depth 1. -/
theorem startup_invg : INVG startupState ∧ startupState.maxScopeDepth = 1 := by
  have hss : startupState =
      { scopeInfo := [⟨none, 0, 1, SCOPE_GLOBAL, none⟩]
        symbolInfo := [⟨INT_STR, 0, SymbolPayload.tType 0⟩]
        symrefInfo := []
        typeInfo := [⟨.tBase INT_STR 8, true⟩]
        paramtypeInfo := []
        dataInfo := []
        arrayInfo := []
        procInfo := []
        paramInfo := []
        scopeStack := [0]
        maxScopeDepth := 1 } := by rfl
  rw [hss]
  refine ⟨⟨⟨?_, ?_, ?_⟩, rfl⟩, rfl⟩
  · intro i sym2 h2
    match i with
    | 0 =>
        have h3 : sym2 = ⟨INT_STR, 0, SymbolPayload.tType 0⟩ :=
          (Option.some.inj h2).symm
        rw [h3]
        exact Nat.zero_lt_one
    | i + 1 => exact Option.noConfusion h2
  · intro s sc hs hk
    match s with
    | 0 =>
        have h3 : sc = ⟨none, 0, 1, SCOPE_GLOBAL, none⟩ := (Option.some.inj hs).symm
        rw [h3] at hk
        exact ScopeKind.noConfusion hk
    | s + 1 => exact Option.noConfusion hs
  · exact ⟨⟨none, 0, 1, SCOPE_GLOBAL, none⟩, rfl, rfl⟩

/-- The claim's contiguity property for scope `s` with record `sc`, written
from the claim's words as a decidable check over the symbol arena: an index
holds a symbol of this scope exactly when it lies in the `numSymbols`-long
range starting at `firstSymbol`. -/
def scopeContiguousB (symbols : List SymbolInfo) (sc : ScopeInfo) (s : Nat) : Bool :=
  (List.range symbols.length).all fun i =>
    decide ((symbols[i]?.map SymbolInfo.scope = some s) ↔
      (sc.firstSymbol ≤ i ∧ i < sc.firstSymbol + sc.numSymbols))

theorem scopeContiguousB_of_contig (symbols : List SymbolInfo) (sc : ScopeInfo) (s : Nat)
    (h : ∀ (i : Nat) (sym : SymbolInfo), symbols[i]? = some sym →
      (sym.scope = s ↔ (sc.firstSymbol ≤ i ∧ i < sc.firstSymbol + sc.numSymbols))) :
    scopeContiguousB symbols sc s = true := by
  unfold scopeContiguousB
  rw [List.all_eq_true]
  intro i hi
  rw [List.mem_range] at hi
  have hgt : symbols[i]? = some (symbols.get ⟨i, hi⟩) := List.getElem?_eq_getElem hi
  have hiff := h i (symbols.get ⟨i, hi⟩) hgt
  rw [decide_eq_true_eq, hgt]
  simp only [Option.map_some']
  constructor
  · intro hl
    exact hiff.mp (Option.some.inj hl)
  · intro hr
    exact congrArg some (hiff.mpr hr)

/-- The C7 counterexample program: a proc declaration followed by a global
data declaration, so the proc's parameter symbol sits between the two
global symbols in the arena. -/
def c7Src : List Nat := strBytes "proc f(int a) int \x7b \x7d data y int;"

/-- C7 counterexample: parsing `proc f(int a) int \x7b \x7d data y int;`
succeeds, yet the global scope (id 0) fails the claim's contiguity check:
the symbol arena's owner scopes are `[0, 0, 1, 0]` (int, f, a, y), so the
proc parameter `a` is interleaved between global symbols and the global
scope's claimed range `[firstSymbol, firstSymbol + numSymbols)` is not
exactly its symbols. -/
theorem C7_contiguity_counterexample :
    (buildIR c7Src).isSome = true ∧
    ((buildIR c7Src).getD startupState).scopeInfo[0]?.map
        (fun sc => scopeContiguousB ((buildIR c7Src).getD startupState).symbolInfo sc 0)
      = some false ∧
    ((buildIR c7Src).getD startupState).symbolInfo.map SymbolInfo.scope = [0, 0, 1, 0] := by
  exact ⟨by rfl, by rfl, by rfl⟩

/-- C7 as amended: after building any declaration list from the startup
state, every `SCOPE_PROC` scope's record satisfies the claim's property
— the symbols it owns are exactly the contiguous range `[firstSymbol,
firstSymbol + numSymbols)` of the symbol arena, which lies inside the
arena.  (The claim's universal form over *every* scope is false: the
global scope is interleaved with proc parameters, see the
counterexample.) -/
theorem C7_scope_contiguity (fuel : Nat) (decls : List PDecl) (st2 : IRState)
    (h : buildDecls fuel decls startupState = some st2) :
    ∀ (s : Nat) (sc : ScopeInfo), st2.scopeInfo[s]? = some sc →
      sc.kind = SCOPE_PROC →
      scopeContiguousB st2.symbolInfo sc s = true ∧
      sc.firstSymbol + sc.numSymbols ≤ st2.symbolInfo.length := by
  have hb := buildDecls_pres fuel decls startupState st2 h startup_invg.1
  intro s sc hs hk
  have hc := hb.1.1.2.1 s sc hs hk
  exact ⟨scopeContiguousB_of_contig _ _ _ hc.1, hc.2⟩

/-- Witness for `C7_scope_contiguity`: one proc with one parameter; the
proc scope (id 1) passes the contiguity check. -/
theorem C7_scope_contiguity_witness :
    scopeContiguousB
      ((buildDecls 9 [PDecl.procD 9 [(PType.named 8, 10)] (PType.named 8) []]
          startupState).getD startupState).symbolInfo
      (((buildDecls 9 [PDecl.procD 9 [(PType.named 8, 10)] (PType.named 8) []]
          startupState).getD startupState).scopeInfo[1]?.getD
        (⟨none, 0, 0, SCOPE_GLOBAL, none⟩ : ScopeInfo)) 1 = true ∧
    (((buildDecls 9 [PDecl.procD 9 [(PType.named 8, 10)] (PType.named 8) []]
          startupState).getD startupState).scopeInfo[1]?.getD
        (⟨none, 0, 0, SCOPE_GLOBAL, none⟩ : ScopeInfo)).firstSymbol
      + (((buildDecls 9 [PDecl.procD 9 [(PType.named 8, 10)] (PType.named 8) []]
          startupState).getD startupState).scopeInfo[1]?.getD
        (⟨none, 0, 0, SCOPE_GLOBAL, none⟩ : ScopeInfo)).numSymbols
      ≤ ((buildDecls 9 [PDecl.procD 9 [(PType.named 8, 10)] (PType.named 8) []]
          startupState).getD startupState).symbolInfo.length :=
  C7_scope_contiguity 9 [PDecl.procD 9 [(PType.named 8, 10)] (PType.named 8) []]
    ((buildDecls 9 [PDecl.procD 9 [(PType.named 8, 10)] (PType.named 8) []]
        startupState).getD startupState)
    (by rfl) 1
    (((buildDecls 9 [PDecl.procD 9 [(PType.named 8, 10)] (PType.named 8) []]
        startupState).getD startupState).scopeInfo[1]?.getD
      (⟨none, 0, 0, SCOPE_GLOBAL, none⟩ : ScopeInfo))
    (by rfl) (by rfl)

/-- C9: the scope-stack depth high-water mark of the IR builder never
exceeds 2, hence never the fixed capacity of 16: starting from the startup
state (global scope only, stack `[0]`, depth 1), every top-level
declaration either stays in the global scope or pushes exactly one
`SCOPE_PROC` scope over the global scope and pops it (there are no nested
block scopes), and after any declaration list the stack is back to `[0]`;
the bound carries to the whole front end. -/
theorem C9_scope_stack_bound :
    (∀ (fuel : Nat) (decls : List PDecl) (st2 : IRState),
       buildDecls fuel decls startupState = some st2 →
       st2.maxScopeDepth ≤ 16 ∧ st2.maxScopeDepth ≤ 2 ∧ st2.scopeStack = [0]) ∧
    (∀ (src : List Nat) (st2 : IRState), compileBytes src = some st2 →
       st2.maxScopeDepth ≤ 16) := by
  have hmain : ∀ (fuel : Nat) (decls : List PDecl) (st2 : IRState),
      buildDecls fuel decls startupState = some st2 →
      st2.maxScopeDepth ≤ 16 ∧ st2.maxScopeDepth ≤ 2 ∧ st2.scopeStack = [0] := by
    intro fuel decls st2 h
    have hb := buildDecls_pres fuel decls startupState st2 h startup_invg.1
    have hd := hb.2
    have hsd := startup_invg.2
    refine ⟨by omega, by omega, hb.1.2⟩
  refine ⟨hmain, ?_⟩
  intro src st2 h
  simp only [compileBytes] at h
  split at h
  · exact Option.noConfusion h
  · rename_i st0 heq0
    split at h
    · exact Option.noConfusion h
    · rename_i srefs heq1
      split at h
      · exact Option.noConfusion h
      · rename_i types heq2
        have hr := Option.some.inj h
        rw [← hr]
        show st0.maxScopeDepth ≤ 16
        unfold buildIR at heq0
        split at heq0
        · exact Option.noConfusion heq0
        · rename_i toks pool heq3
          split at heq0
          · exact Option.noConfusion heq0
          · rename_i decls heq4
            exact (hmain (parseFuel toks) decls st0 heq0).1

/-- Witness for `C9_scope_stack_bound`: both halves at concrete inputs. -/
theorem C9_scope_stack_bound_witness :
    ((compileBytes (strBytes "data x int;")).getD startupState).maxScopeDepth ≤ 16 ∧
    ((buildDecls 9 [] startupState).getD startupState).scopeStack = [0] :=
  ⟨C9_scope_stack_bound.2 (strBytes "data x int;")
      ((compileBytes (strBytes "data x int;")).getD startupState) (by rfl),
   (C9_scope_stack_bound.1 9 []
      ((buildDecls 9 [] startupState).getD startupState) (by rfl)).2.2⟩

/-! ## Claim C1: counterexample programs -/

/-- The first C1 counterexample program: after the proc, the global scope's
stored symbol range covers the proc's parameter (owner scopes `[0, 0, 1, 0]`),
so the global type use `a` in `data z a;` resolves into the proc scope. -/
def c1SrcA : List Nat := strBytes "proc f(int a) int \x7b \x7d data z a;"

/-- The second C1 counterexample program: the global scope's stored range
`[0, 4)` misses the later-declared `g` at arena index 4. -/
def c1SrcB : List Nat :=
  strBytes "proc f(int a) int \x7b \x7d data y int; proc g() int \x7b return g(); \x7d"

/-- C1 counterexample: on reachable parser states the claim fails in both
directions.  On `c1SrcA` the resolution pass succeeds, yet the symref named
`a` (id 10, `refScope` 0) is bound to symbol 2 — the proc-scope parameter
(`scope = 1`) — although the parent chain of scope 0 is just `[0]`: the
resolved symbol's owning scope is not an ancestor of (or equal to) the
symrefs scope.  On `c1SrcB` resolution is fatal for the symref named `g`
(id 12, `refScope` 2, chain `[2, 0]`) although chain scope 0 declares `g`:
symbol 4 is `g` with `scope = 0`, but the global scope's stored range
misses it, so the resolver's range scan cannot see it.  Both failures stem
from the stored ranges being inexact on these states (`rangeScopedB`
false — the C7 interleaving). -/
theorem C1_resolution_counterexample :
    (∃ st : IRState, buildIR c1SrcA = some st ∧
      rangeScopedB st.scopeInfo st.symbolInfo = false ∧
      st.symrefInfo[2]? = some ⟨10, 0, 0, none⟩ ∧
      ∃ srefs : List SymrefInfo,
        resolve_symrefs st.scopeInfo st.symbolInfo st.symrefInfo = some srefs ∧
        srefs[2]? = some ⟨10, 0, 0, some 2⟩ ∧
        st.symbolInfo[2]? = some ⟨10, 1, SymbolPayload.tParam 0⟩ ∧
        scopeChain st.scopeInfo st.scopeInfo.length 0 = [0] ∧
        (scopeChain st.scopeInfo st.scopeInfo.length 0).contains 1 = false) ∧
    (∃ st : IRState, buildIR c1SrcB = some st ∧
      resolve_symrefs st.scopeInfo st.symbolInfo st.symrefInfo = none ∧
      st.symrefInfo[4]? = some ⟨12, 2, 0, none⟩ ∧
      st.symbolInfo[4]? = some ⟨12, 0, SymbolPayload.tProc 1⟩ ∧
      scopeChain st.scopeInfo st.scopeInfo.length 2 = [2, 0] ∧
      scopeDeclaresAt st.scopeInfo st.symbolInfo 0 12 = false) := by
  refine ⟨⟨(buildIR c1SrcA).getD startupState, by rfl, by rfl, by rfl, ?_⟩,
    ⟨(buildIR c1SrcB).getD startupState, by rfl, by rfl, by rfl, by rfl, by rfl,
      by rfl⟩⟩
  exact ⟨(resolve_symrefs ((buildIR c1SrcA).getD startupState).scopeInfo
      ((buildIR c1SrcA).getD startupState).symbolInfo
      ((buildIR c1SrcA).getD startupState).symrefInfo).getD [],
    by rfl, by rfl, by rfl, by rfl, by rfl⟩

end Lang
